import Mathlib

/-!
Verification of the udashboard core against its specification.

The development shallowly embeds the Rust sources:
* `src/vm.rs` — runtime values, value operators, the assembler lowering
  pass, and the stack virtual machine (namespace `UVM`);
* `src/typechecker.rs` — the surface type checker (namespace `UTC`).

Machine integers are modelled as `Int`/`Nat` with explicit two's-complement
wrapping where the source's release-profile arithmetic wraps; sites where
Rust panics in every profile (`unwrap`, `assert!`, division checks,
`Vec::remove` out of range) are modelled by an explicit `Fault.panic`
outcome, distinct from the VM's own `Error` enum.  The host `f64` type is
not axiomatised: every definition is parametric in a carrier `F` together
with a bundle `FloatOps F` of the operations the interpreter uses, so all
theorems hold for arbitrary float behaviour, and concrete witnesses
instantiate `F := Unit`.
-/

namespace UVM

/-- Two's-complement wrap of an integer into the signed 64-bit range
`[-2^63, 2^63)`, modelling Rust release-profile wrapping `i64` arithmetic. -/
def wrap64 (x : Int) : Int := (x + 2 ^ 63) % 2 ^ 64 - 2 ^ 63

/-- The bit pattern of an `i64` value read as an unsigned 64-bit number. -/
def toU64 (x : Int) : Nat := (x % 2 ^ 64).toNat

/-- The floating-point operations the interpreter uses, over an abstract
carrier `F` standing for the host `f64`.  `feq` models Rust `==` on `f64`
(not assumed reflexive), `toInt` models the `as i64` cast, `ofInt` the
`as f64` cast. -/
structure FloatOps (F : Type) where
  add : F → F → F
  sub : F → F → F
  mul : F → F → F
  div : F → F → F
  rem : F → F → F
  pow : F → F → F
  fmin : F → F → F
  fmax : F → F → F
  flt : F → F → Bool
  fgt : F → F → Bool
  fle : F → F → Bool
  fge : F → F → Bool
  feq : F → F → Bool
  fneg : F → F
  fabs : F → F
  ofInt : Int → F
  toInt : F → Int

/-- Trivial instantiation of the float operations, used for concrete
witnesses. -/
def unitFloat : FloatOps Unit where
  add _ _ := (); sub _ _ := (); mul _ _ := (); div _ _ := ()
  rem _ _ := (); pow _ _ := (); fmin _ _ := (); fmax _ _ := ()
  flt _ _ := false; fgt _ _ := false; fle _ _ := false; fge _ _ := false
  feq _ _ := true
  fneg _ := (); fabs _ := ()
  ofInt _ := (); toInt _ := 0

/-- Runtime type tags (`TypeTag` in `vm.rs`). -/
inductive TypeTag where
  | Bool
  | Int
  | Float
  | Str
  | List
  | Map
  | Addr
deriving DecidableEq

/-- The `#[repr(u8)]` discriminant bits assigned to each tag in the source. -/
def TypeTag.bits : TypeTag → Nat
  | .Bool => 1
  | .Int => 2
  | .Float => 4
  | .Str => 8
  | .List => 16
  | .Map => 32
  | .Addr => 64

/-- `TypeSet` is a bitmask over `TypeTag` (the source's
`BitFlags<TypeTag>`). -/
abbrev TypeSet := Nat

/-- `BitFlags::from_flag`. -/
def fromFlag (t : TypeTag) : TypeSet := t.bits

/-- Union of two type sets (`|` on `BitFlags`). -/
def tsUnion (a b : TypeSet) : TypeSet := Nat.lor a b

/-- Runtime values (`Value` in `vm.rs`).  The `f64` payload is the abstract
carrier `F`; `Rc<String>` is `String`, `Rc<Vec<Value>>` a list, the
`Rc<Env>` map an association list standing for the source's `HashMap`, and
the `usize` address a `Nat`. -/
inductive Value (F : Type) where
  | Bool : Bool → Value F
  | Int : Int → Value F
  | Float : F → Value F
  | Str : String → Value F
  | List : List (Value F) → Value F
  | Map : List (String × Value F) → Value F
  | Addr : Nat → Value F

variable {F : Type}

/-- `Value::get_type`. -/
def Value.getType : Value F → TypeTag
  | .Bool _ => .Bool
  | .Int _ => .Int
  | .Float _ => .Float
  | .Str _ => .Str
  | .List _ => .List
  | .Map _ => .Map
  | .Addr _ => .Addr

/-- First-match lookup in an association list, modelling `HashMap::get`. -/
def lookupKey (k : String) : List (String × Value F) → Option (Value F)
  | [] => none
  | (k', v) :: rest => if k = k' then some v else lookupKey k rest

mutual

/-- The boolean comparison `PartialEq for Value` induces via `Value::eq`:
payload comparison on identical tags (`feq` for floats), `false` across
tags.  Lists compare elementwise; maps compare as the source's `HashMap`
equality does (equal size and every left entry present and equal on the
right). -/
def beqV (feq : F → F → Bool) : Value F → Value F → Bool
  | .Bool a, .Bool b => a == b
  | .Int a, .Int b => a == b
  | .Float a, .Float b => feq a b
  | .Str a, .Str b => a == b
  | .List a, .List b => beqVList feq a b
  | .Map a, .Map b => a.length == b.length && beqVMapIncl feq a b
  | .Addr a, .Addr b => a == b
  | _, _ => false

/-- Elementwise comparison of value sequences (`PartialEq for Vec`). -/
def beqVList (feq : F → F → Bool) : List (Value F) → List (Value F) → Bool
  | [], [] => true
  | x :: xs, y :: ys => beqV feq x y && beqVList feq xs ys
  | _, _ => false

/-- Each left entry's key is present on the right with an equal value (the
inclusion half of `PartialEq for HashMap`). -/
def beqVMapIncl (feq : F → F → Bool) :
    List (String × Value F) → List (String × Value F) → Bool
  | [], _ => true
  | (k, v) :: rest, other =>
    (match lookupKey k other with
     | some w => beqV feq v w
     | none => false) && beqVMapIncl feq rest other

end

/-- Runtime errors (`Error` in `vm.rs`). -/
inductive Error where
  | Underflow
  | Overflow
  | NotImplemented
  | IllegalOpcode
  | IllegalAddr : Nat → Error
  | TypeError : TypeSet → TypeTag → Error
  | TypeMismatch : TypeTag → TypeTag → Error
  | IndexError : Nat → Error
  | KeyError : String → Error
  | Arity : Nat → Nat → Error
  | DebugBreak
  | Halt
deriving DecidableEq

/-- Every operation either succeeds, fails with a VM `Error`, or hits a
site where the Rust source panics in every build profile (`unwrap`,
`assert!`, `Vec::remove` out of range, division checks).  Panics are kept
distinct from `Error` because they escape the VM's error taxonomy. -/
inductive Fault where
  | err : Error → Fault
  | panic : Fault
deriving DecidableEq

/-- `expected` in `vm.rs`: build a `TypeError` from the accepted set and the
offending value. -/
def expected (expect : TypeSet) (got : Value F) : Error :=
  .TypeError expect got.getType

/-- `type_mismatch` in `vm.rs`. -/
def typeMismatch (a b : Value F) : Error :=
  .TypeMismatch a.getType b.getType

variable (fops : FloatOps F)

/-- `Value::coerce`. -/
def Value.coerce : Value F → TypeTag → Except Fault (Value F)
  | .Bool v, .Bool => .ok (.Bool v)
  | .Bool v, .Int => .ok (.Int (if v then 1 else 0))
  | .Int v, .Bool => .ok (.Bool (v != 0))
  | .Int v, .Int => .ok (.Int v)
  | .Int v, .Float => .ok (.Float (fops.ofInt v))
  | .Float v, .Int => .ok (.Int (fops.toInt v))
  | .Float v, .Float => .ok (.Float v)
  | .Str v, .Bool => .ok (.Bool (!v.isEmpty))
  | .List v, .Bool => .ok (.Bool (!v.isEmpty))
  | .Map v, .Bool => .ok (.Bool (!v.isEmpty))
  | a, b => .error (.err (.TypeMismatch a.getType b))

/-- `Value::abs` (unary operator table).  `i64::abs` overflows on `i64::MIN`;
the release profile wraps. -/
def Value.abs : Value F → Except Fault (Value F)
  | .Int v => .ok (.Int (wrap64 (Int.natAbs v)))
  | .Float v => .ok (.Float (fops.fabs v))
  | v => .error (.err (expected (tsUnion (fromFlag .Int) (fromFlag .Float)) v))

/-- `Value::pow`.  The exponent is silently cast `as u32` (low 32 bits of
the bit pattern) and `i64::pow` wraps in release builds. -/
def Value.pow : Value F → Value F → Except Fault (Value F)
  | .Int a, .Int b => .ok (.Int (wrap64 (a ^ ((b % 2 ^ 32).toNat))))
  | .Float a, .Float b => .ok (.Float (fops.pow a b))
  | a, b => .error (.err (typeMismatch a b))

/-- `Value::min`. -/
def Value.min : Value F → Value F → Except Fault (Value F)
  | .Int a, .Int b => .ok (.Int (Min.min a b))
  | .Float a, .Float b => .ok (.Float (fops.fmin a b))
  | a, b => .error (.err (typeMismatch a b))

/-- `Value::max`. -/
def Value.max : Value F → Value F → Except Fault (Value F)
  | .Int a, .Int b => .ok (.Int (Max.max a b))
  | .Float a, .Float b => .ok (.Float (fops.fmax a b))
  | a, b => .error (.err (typeMismatch a b))

/-- `Value::add`.  Integer addition is Rust `a + b`, which wraps in release
builds (and panics in debug); it does not surface a VM error. -/
def Value.add : Value F → Value F → Except Fault (Value F)
  | .Int a, .Int b => .ok (.Int (wrap64 (a + b)))
  | .Float a, .Float b => .ok (.Float (fops.add a b))
  | a, b => .error (.err (typeMismatch a b))

/-- `Value::sub`. -/
def Value.sub : Value F → Value F → Except Fault (Value F)
  | .Int a, .Int b => .ok (.Int (wrap64 (a - b)))
  | .Float a, .Float b => .ok (.Float (fops.sub a b))
  | a, b => .error (.err (typeMismatch a b))

/-- `Value::mul`. -/
def Value.mul : Value F → Value F → Except Fault (Value F)
  | .Int a, .Int b => .ok (.Int (wrap64 (a * b)))
  | .Float a, .Float b => .ok (.Float (fops.mul a b))
  | a, b => .error (.err (typeMismatch a b))

/-- `Value::div`.  Rust `i64` division panics (in every profile) on a zero
divisor and on `i64::MIN / -1`; otherwise it truncates toward zero. -/
def Value.div : Value F → Value F → Except Fault (Value F)
  | .Int a, .Int b =>
    if b = 0 then .error .panic
    else if a = -(2 ^ 63) ∧ b = -1 then .error .panic
    else .ok (.Int (a.tdiv b))
  | .Float a, .Float b => .ok (.Float (fops.div a b))
  | a, b => .error (.err (typeMismatch a b))

/-- `Value::modulo`, with the same checked cases as division. -/
def Value.modulo : Value F → Value F → Except Fault (Value F)
  | .Int a, .Int b =>
    if b = 0 then .error .panic
    else if a = -(2 ^ 63) ∧ b = -1 then .error .panic
    else .ok (.Int (a.tmod b))
  | .Float a, .Float b => .ok (.Float (fops.rem a b))
  | a, b => .error (.err (typeMismatch a b))

/-- `Value::bitand`. -/
def Value.bitand : Value F → Value F → Except Fault (Value F)
  | .Bool a, .Bool b => .ok (.Bool (a && b))
  | .Int a, .Int b => .ok (.Int (wrap64 (Nat.land (toU64 a) (toU64 b))))
  | a, b => .error (.err (typeMismatch a b))

/-- `Value::bitor`. -/
def Value.bitor : Value F → Value F → Except Fault (Value F)
  | .Bool a, .Bool b => .ok (.Bool (a || b))
  | .Int a, .Int b => .ok (.Int (wrap64 (Nat.lor (toU64 a) (toU64 b))))
  | a, b => .error (.err (typeMismatch a b))

/-- `Value::bitxor`. -/
def Value.bitxor : Value F → Value F → Except Fault (Value F)
  | .Bool a, .Bool b => .ok (.Bool (xor a b))
  | .Int a, .Int b => .ok (.Int (wrap64 (Nat.xor (toU64 a) (toU64 b))))
  | a, b => .error (.err (typeMismatch a b))

/-- `Value::shl`.  The release profile masks the shift amount to the low six
bits of its bit pattern and wraps the result. -/
def Value.shl : Value F → Value F → Except Fault (Value F)
  | .Int a, .Int b => .ok (.Int (wrap64 (a * 2 ^ (toU64 b % 64))))
  | a, b => .error (.err (typeMismatch a b))

/-- `Value::shr`: arithmetic right shift (floor division by a power of
two), shift amount masked as in `shl`. -/
def Value.shr : Value F → Value F → Except Fault (Value F)
  | .Int a, .Int b => .ok (.Int (Int.ediv a (2 ^ (toU64 b % 64))))
  | a, b => .error (.err (typeMismatch a b))

/-- `Value::not`: boolean negation, or bitwise complement on integers. -/
def Value.not : Value F → Except Fault (Value F)
  | .Bool a => .ok (.Bool (!a))
  | .Int a => .ok (.Int (-(a + 1)))
  | v => .error (.err (expected (tsUnion (fromFlag .Bool) (fromFlag .Int)) v))

/-- `Value::neg`.  Negating `i64::MIN` wraps in release builds. -/
def Value.neg : Value F → Except Fault (Value F)
  | .Int a => .ok (.Int (wrap64 (-a)))
  | .Float a => .ok (.Float (fops.fneg a))
  | v => .error (.err (expected (tsUnion (fromFlag .Int) (fromFlag .Float)) v))

/-- `Value::lt`. -/
def Value.lt : Value F → Value F → Except Fault (Value F)
  | .Int a, .Int b => .ok (.Bool (a < b))
  | .Float a, .Float b => .ok (.Bool (fops.flt a b))
  | a, b => .error (.err (typeMismatch a b))

/-- `Value::gt`. -/
def Value.gt : Value F → Value F → Except Fault (Value F)
  | .Int a, .Int b => .ok (.Bool (a > b))
  | .Float a, .Float b => .ok (.Bool (fops.fgt a b))
  | a, b => .error (.err (typeMismatch a b))

/-- `Value::lte`. -/
def Value.lte : Value F → Value F → Except Fault (Value F)
  | .Int a, .Int b => .ok (.Bool (a ≤ b))
  | .Float a, .Float b => .ok (.Bool (fops.fle a b))
  | a, b => .error (.err (typeMismatch a b))

/-- `Value::gte`. -/
def Value.gte : Value F → Value F → Except Fault (Value F)
  | .Int a, .Int b => .ok (.Bool (a ≥ b))
  | .Float a, .Float b => .ok (.Bool (fops.fge a b))
  | a, b => .error (.err (typeMismatch a b))

/-- `Value::eq`: payload equality on identical tags, structural on strings,
lists and maps, and `Bool(false)` on any tag mismatch (the final catch-all
arm of the source's match). -/
def Value.eq : Value F → Value F → Except Fault (Value F)
  | .Bool a, .Bool b => .ok (.Bool (a == b))
  | .Int a, .Int b => .ok (.Bool (a == b))
  | .Float a, .Float b => .ok (.Bool (fops.feq a b))
  | .Str a, .Str b => .ok (.Bool (a == b))
  | .List a, .List b => .ok (.Bool (beqVList fops.feq a b))
  | .Map a, .Map b =>
    .ok (.Bool (a.length == b.length && beqVMapIncl fops.feq a b))
  | .Addr a, .Addr b => .ok (.Bool (a == b))
  | _, _ => .ok (.Bool false)

/-- Arithmetic and logic operations (`BinOp` in `ast.rs`). -/
inductive BinOp where
  | Add | Sub | Mul | Div | Mod | Pow
  | And | Or | Xor
  | Lt | Gt | Lte | Gte | Eq
  | Shl | Shr | Min | Max
deriving DecidableEq

/-- Unary operations (`UnOp` in `ast.rs`). -/
inductive UnOp where
  | Not | Neg | Abs
deriving DecidableEq

/-- Canvas operations (`CairoOp` in `ast.rs`). -/
inductive CairoOp where
  | SetSourceRgb | SetSourceRgba | Rect | Fill | Stroke | Paint
deriving DecidableEq

/-- The in-memory opcode format (`Opcode` in `vm.rs`).  The `u16` pool
index and the `u8` operands are carried as `Nat`; where the source's
arithmetic on them can wrap (`Dup`'s `n + 1`), the width is applied
explicitly at the use site. -/
inductive Opcode where
  | LoadI : Nat → Opcode
  | Load
  | Get
  | Coerce : TypeTag → Opcode
  | Binary : BinOp → Opcode
  | Unary : UnOp → Opcode
  | Call : Nat → Opcode
  | Ret : Nat → Opcode
  | BranchTrue
  | BranchFalse
  | Branch
  | Drop : Nat → Opcode
  | Dup : Nat → Opcode
  | Arg : Nat → Opcode
  | Index
  | Dot
  | Expect : TypeTag → Opcode
  | Disp : CairoOp → Opcode
  | Break
  | Halt
deriving DecidableEq

/-- The internal program representation (`Program` in `vm.rs`). -/
structure Program (F : Type) where
  code : List Opcode
  data : List (Value F)

/-- `Program::fetch`: the implicit terminator sits one past the end. -/
def Program.fetch (p : Program F) (index : Nat) : Except Fault Opcode :=
  if h : index < p.code.length then .ok p.code[index]
  else if index = p.code.length then .error (.err .Halt)
  else .error (.err (.IllegalAddr index))

/-- `Program::load`. -/
def Program.load (p : Program F) (index : Nat) : Except Fault (Value F) :=
  if h : index < p.data.length then .ok p.data[index]
  else .error (.err (.IllegalAddr index))

/-- The external program representation (`Insn` in `vm.rs`). -/
inductive Insn (F : Type) where
  | Op : Opcode → Insn F
  | Label : String → Insn F
  | LabelRef : String → Insn F
  | Val : Value F → Insn F

/-- First pass of `filter_labels`: drop `Label` pseudo-instructions,
recording each label's post-removal index (`HashMap::insert` overwrite is
modelled by prepending to a first-match association list). -/
def labelsPass : List (Insn F) → List (Insn F) → List (String × Insn F) →
    List (Insn F) × List (String × Insn F)
  | [], acc, labels => (acc, labels)
  | .Label name :: rest, acc, labels =>
    labelsPass rest acc ((name, .Val (.Addr acc.length)) :: labels)
  | insn :: rest, acc, labels => labelsPass rest (acc ++ [insn]) labels

/-- First-match lookup among recorded labels. -/
def lookupLabel (name : String) : List (String × Insn F) → Option (Insn F)
  | [] => none
  | (n, i) :: rest => if name = n then some i else lookupLabel name rest

/-- Second pass of `filter_labels`: substitute each `LabelRef`; an
undefined reference hits the source's `.expect(...)`, a panic. -/
def refsPass (labels : List (String × Insn F)) :
    List (Insn F) → Except Fault (List (Insn F))
  | [] => .ok []
  | .LabelRef name :: rest =>
    match lookupLabel name labels with
    | some i => (refsPass labels rest).map (i :: ·)
    | none => .error .panic
  | insn :: rest => (refsPass labels rest).map (insn :: ·)

/-- `filter_labels` in `vm.rs`. -/
def filter_labels (insns : List (Insn F)) : Except Fault (List (Insn F)) :=
  let (removed, labels) := labelsPass insns [] []
  refsPass labels removed

mutual

/-- Structural equality of values, modelling equality of the
`format!("{:?}", _)` strings by which `lower` keys its interning map
(the `Debug` representation is injective given injective float
formatting; maps compare in stored order, as their printed form does). -/
def reprEq [DecidableEq F] : Value F → Value F → Bool
  | .Bool a, .Bool b => a == b
  | .Int a, .Int b => a == b
  | .Float a, .Float b => a == b
  | .Str a, .Str b => a == b
  | .List a, .List b => reprEqList a b
  | .Map a, .Map b => reprEqPairs a b
  | .Addr a, .Addr b => a == b
  | _, _ => false

/-- Elementwise `reprEq` on sequences. -/
def reprEqList [DecidableEq F] : List (Value F) → List (Value F) → Bool
  | [], [] => true
  | x :: xs, y :: ys => reprEq x y && reprEqList xs ys
  | _, _ => false

/-- Pairwise `reprEq` on map entries in stored order. -/
def reprEqPairs [DecidableEq F] :
    List (String × Value F) → List (String × Value F) → Bool
  | [], [] => true
  | (k, v) :: xs, (k', w) :: ys => k == k' && reprEq v w && reprEqPairs xs ys
  | _, _ => false

end

/-- First-match lookup in the interning map of `lower`. -/
def lookupVal [DecidableEq F] (values : List (Value F × Nat)) (v : Value F) :
    Option Nat :=
  match values with
  | [] => none
  | (w, idx) :: rest => if reprEq v w then some idx else lookupVal rest v

/-- The main loop of `lower`: literal values are interned into the data
section and replaced by `LoadI`; opcodes pass through; leftover label
pseudo-instructions hit the source's `panic!(..)` arms.  The pool index is
`data.len() as u16`, i.e. the length truncated to 16 bits — the source's
`// XXX: check len < 64k` bound is not enforced. -/
def lowerLoop [DecidableEq F] : List (Insn F) → List (Value F × Nat) →
    List (Value F) → List Opcode → Except Fault (Program F)
  | [], _, data, code => .ok ⟨code, data⟩
  | .Val val :: rest, values, data, code =>
    (match lookupVal values val with
     | some existing => lowerLoop rest values data (code ++ [.LoadI existing])
     | none =>
       let index := data.length % 2 ^ 16
       lowerLoop rest ((val, index) :: values) (data ++ [val])
         (code ++ [.LoadI index]))
  | .Op opcode :: rest, values, data, code =>
    lowerLoop rest values data (code ++ [opcode])
  | .Label _ :: _, _, _, _ => .error .panic
  | .LabelRef _ :: _, _, _, _ => .error .panic

/-- `lower` in `vm.rs`: resolve labels, then intern literals.  It only ever
returns `Ok` or panics; no pool-overflow error exists in the source. -/
def lower [DecidableEq F] (insns : List (Insn F)) : Except Fault (Program F) :=
  match filter_labels insns with
  | .ok resolved => lowerLoop resolved [] [] []
  | .error e => .error e

/-- A call-stack frame (`StackFrame` in `vm.rs`). -/
structure StackFrame where
  returnAddress : Nat
  framePointer : Nat
  arity : Nat
deriving DecidableEq

/-- The entire VM state (`VM` in `vm.rs`).  The operand stack is stored
bottom-first (`Vec` order); `cap` is the capacity fixed at construction;
`outBuf` is the effect sink, instantiated with the source's
`impl Output for Vec<Value>` (pop one operand, record it). -/
structure VM (F : Type) where
  program : Program F
  stack : List (Value F)
  callStack : List StackFrame
  curFrame : StackFrame
  pc : Nat
  cap : Nat
  outBuf : List (Value F)

/-- The type of control flow an instruction can have (`ControlFlow`). -/
inductive ControlFlow (F : Type) where
  | Advance
  | Branch : Nat → ControlFlow F
  | Yield : Value F → ControlFlow F

/-- `VM::new`. -/
def VM.new (program : Program F) (depth : Nat) : VM F where
  program := program
  stack := []
  callStack := []
  curFrame := ⟨0, 0, 0⟩
  pc := 0
  cap := depth
  outBuf := []

/-- `VM::pop`. -/
def VM.pop (vm : VM F) : Except Fault (Value F × VM F) :=
  match vm.stack.getLast? with
  | some v => .ok (v, { vm with stack := vm.stack.dropLast })
  | none => .error (.err .Underflow)

/-- `VM::push`: guarded by the capacity fixed at construction. -/
def VM.push (vm : VM F) (v : Value F) : Except Fault (ControlFlow F × VM F) :=
  if vm.stack.length < vm.cap then
    .ok (.Advance, { vm with stack := vm.stack ++ [v] })
  else .error (.err .Overflow)

/-- `TryInto<bool>`. -/
def tryIntoBool : Value F → Except Fault Bool
  | .Bool v => .ok v
  | v => .error (.err (expected (fromFlag .Bool) v))

/-- `TryInto<usize>` (the `Addr` payload). -/
def tryIntoAddr : Value F → Except Fault Nat
  | .Addr v => .ok v
  | v => .error (.err (expected (fromFlag .Addr) v))

/-- `TryInto<Rc<String>>`. -/
def tryIntoStr : Value F → Except Fault String
  | .Str v => .ok v
  | v => .error (.err (expected (fromFlag .Str) v))

/-- `TryInto<Rc<Vec<Value>>>`. -/
def tryIntoList : Value F → Except Fault (List (Value F))
  | .List v => .ok v
  | v => .error (.err (expected (fromFlag .List) v))

/-- `TryInto<Rc<Env>>`. -/
def tryIntoMap : Value F → Except Fault (List (String × Value F))
  | .Map v => .ok v
  | v => .error (.err (expected (fromFlag .Map) v))

/-- `VM::pop_into::<bool>`. -/
def VM.popBool (vm : VM F) : Except Fault (Bool × VM F) :=
  match vm.pop with
  | .ok (v, vm') =>
    (match tryIntoBool v with
     | .ok b => .ok (b, vm')
     | .error e => .error e)
  | .error e => .error e

/-- `VM::pop_into::<usize>`. -/
def VM.popAddr (vm : VM F) : Except Fault (Nat × VM F) :=
  match vm.pop with
  | .ok (v, vm') =>
    (match tryIntoAddr v with
     | .ok a => .ok (a, vm')
     | .error e => .error e)
  | .error e => .error e

/-- `VM::pop_into::<Rc<String>>`. -/
def VM.popStr (vm : VM F) : Except Fault (String × VM F) :=
  match vm.pop with
  | .ok (v, vm') =>
    (match tryIntoStr v with
     | .ok s => .ok (s, vm')
     | .error e => .error e)
  | .error e => .error e

/-- `VM::pop_into::<Rc<Vec<Value>>>`. -/
def VM.popList (vm : VM F) : Except Fault (List (Value F) × VM F) :=
  match vm.pop with
  | .ok (v, vm') =>
    (match tryIntoList v with
     | .ok l => .ok (l, vm')
     | .error e => .error e)
  | .error e => .error e

/-- `VM::pop_into::<Rc<Env>>`. -/
def VM.popMap (vm : VM F) : Except Fault (List (String × Value F) × VM F) :=
  match vm.pop with
  | .ok (v, vm') =>
    (match tryIntoMap v with
     | .ok m => .ok (m, vm')
     | .error e => .error e)
  | .error e => .error e

/-- `VM::load_immediate`. -/
def VM.load_immediate (vm : VM F) (addr : Nat) :
    Except Fault (ControlFlow F × VM F) :=
  match vm.program.load addr with
  | .ok v =>
    (match vm.push v with
     | .ok (_, vm') => .ok (.Advance, vm')
     | .error e => .error e)
  | .error e => .error e

/-- `VM::load` (the `Load` opcode). -/
def VM.load (vm : VM F) : Except Fault (ControlFlow F × VM F) :=
  match vm.pop with
  | .ok (.Addr address, vm') => vm'.load_immediate address
  | .ok (v, _) => .error (.err (expected (fromFlag .Addr) v))
  | .error e => .error e

/-- `VM::get`: look a string key up in the external environment. -/
def VM.get (vm : VM F) (env : List (String × Value F)) :
    Except Fault (ControlFlow F × VM F) :=
  match vm.popStr with
  | .ok (key, vm') =>
    (match lookupKey key env with
     | some value => .ok (.Yield value, vm')
     | none => .error (.err (.KeyError key)))
  | .error e => .error e

/-- `VM::binop`: pop the right operand, then the left, then dispatch to
the value operator table. -/
def VM.binop (fops : FloatOps F) (vm : VM F) (op : BinOp) :
    Except Fault (ControlFlow F × VM F) :=
  match vm.pop with
  | .error e => .error e
  | .ok (b, vm₁) =>
    match vm₁.pop with
    | .error e => .error e
    | .ok (a, vm₂) =>
      match
        (match op with
         | .Add => a.add fops b
         | .Sub => a.sub fops b
         | .Mul => a.mul fops b
         | .Div => a.div fops b
         | .Mod => a.modulo fops b
         | .Pow => a.pow fops b
         | .And => a.bitand b
         | .Or => a.bitor b
         | .Xor => a.bitxor b
         | .Lt => a.lt fops b
         | .Gt => a.gt fops b
         | .Lte => a.lte fops b
         | .Gte => a.gte fops b
         | .Eq => a.eq fops b
         | .Shl => a.shl b
         | .Shr => a.shr b
         | .Min => a.min fops b
         | .Max => a.max fops b) with
      | .ok ret => .ok (.Yield ret, vm₂)
      | .error e => .error e

/-- `VM::unop`. -/
def VM.unop (fops : FloatOps F) (vm : VM F) (op : UnOp) :
    Except Fault (ControlFlow F × VM F) :=
  match vm.pop with
  | .error e => .error e
  | .ok (value, vm₁) =>
    match
      (match op with
       | .Not => value.not
       | .Neg => value.neg fops
       | .Abs => value.abs fops) with
    | .ok ret => .ok (.Yield ret, vm₁)
    | .error e => .error e

/-- `VM::coerce` (the `Coerce` opcode). -/
def VM.coerceOp (fops : FloatOps F) (vm : VM F) (tt : TypeTag) :
    Except Fault (ControlFlow F × VM F) :=
  match vm.pop with
  | .error e => .error e
  | .ok (v, vm₁) =>
    match v.coerce fops tt with
    | .ok ret => .ok (.Yield ret, vm₁)
    | .error e => .error e

/-- `VM::call`: pop the target, save the frame, set up the new frame.  The
frame pointer is `stack.len() - arity` on `usize`, which wraps in release
builds when fewer than `arity` values remain. -/
def VM.call (vm : VM F) (arity : Nat) : Except Fault (ControlFlow F × VM F) :=
  match vm.popAddr with
  | .error e => .error e
  | .ok (target, vm') =>
    .ok (.Branch target,
      { vm' with
        callStack := vm'.curFrame :: vm'.callStack,
        curFrame :=
          { returnAddress := vm'.pc + 1,
            framePointer := (vm'.stack.length + 2 ^ 64 - arity) % 2 ^ 64,
            arity := arity } })

/-- The `for _ in 0..arity { self.stack.remove(fp); }` loop of `VM::ret`;
`Vec::remove` panics when the index is out of range. -/
def removeLoop : List (Value F) → Nat → Nat → Except Fault (List (Value F))
  | s, _, 0 => .ok s
  | s, fp, n + 1 =>
    if fp < s.length then removeLoop (s.take fp ++ s.drop (fp + 1)) fp n
    else .error .panic

/-- `VM::ret`: unwind the argument block, `assert!` the remaining depth,
restore the caller's frame via `call_stack.pop().unwrap()`.  Both the
failed assertion and an empty call stack are panics. -/
def VM.ret (vm : VM F) (retvals : Nat) : Except Fault (ControlFlow F × VM F) :=
  let fp := vm.curFrame.framePointer
  let target := vm.curFrame.returnAddress
  match removeLoop vm.stack fp vm.curFrame.arity with
  | .error e => .error e
  | .ok s =>
    if s.length = fp + retvals then
      match vm.callStack with
      | [] => .error .panic
      | f :: rest =>
        .ok (.Branch target, { vm with stack := s, curFrame := f, callStack := rest })
    else .error .panic

/-- `VM::branch_true`: pop the `Addr` target first, the `Bool` condition
second; both are consumed whichever way the branch goes. -/
def VM.branch_true (vm : VM F) : Except Fault (ControlFlow F × VM F) :=
  match vm.popAddr with
  | .error e => .error e
  | .ok (target, vm₁) =>
    match vm₁.popBool with
    | .error e => .error e
    | .ok (cond, vm₂) =>
      .ok (if cond then (.Branch target, vm₂) else (.Advance, vm₂))

/-- `VM::branch_false`. -/
def VM.branch_false (vm : VM F) : Except Fault (ControlFlow F × VM F) :=
  match vm.popAddr with
  | .error e => .error e
  | .ok (target, vm₁) =>
    match vm₁.popBool with
    | .error e => .error e
    | .ok (cond, vm₂) =>
      .ok (if cond then (.Advance, vm₂) else (.Branch target, vm₂))

/-- `VM::branch`. -/
def VM.branch (vm : VM F) : Except Fault (ControlFlow F × VM F) :=
  match vm.popAddr with
  | .error e => .error e
  | .ok (addr, vm') => .ok (.Branch addr, vm')

/-- The pop loop of `VM::drop`. -/
def popN : VM F → Nat → Except Fault (VM F)
  | vm, 0 => .ok vm
  | vm, n + 1 =>
    match vm.pop with
    | .ok (_, vm') => popN vm' n
    | .error e => .error e

/-- `VM::drop`. -/
def VM.drop (vm : VM F) (n : Nat) : Except Fault (ControlFlow F × VM F) :=
  match popN vm n with
  | .ok vm' => .ok (.Advance, vm')
  | .error e => .error e

/-- The push loop of `VM::dup`. -/
def pushN : VM F → Value F → Nat → Except Fault (VM F)
  | vm, _, 0 => .ok vm
  | vm, v, n + 1 =>
    match vm.push v with
    | .ok (_, vm') => pushN vm' v n
    | .error e => .error e

/-- `VM::dup`: pop the top, push it `n + 1` times.  The count `n + 1` is
computed on `u8`, so it wraps to zero at `n = 255` in release builds. -/
def VM.dup (vm : VM F) (n : Nat) : Except Fault (ControlFlow F × VM F) :=
  match vm.pop with
  | .error e => .error e
  | .ok (top, vm₁) =>
    match pushN vm₁ top ((n + 1) % 256) with
    | .ok vm₂ => .ok (.Advance, vm₂)
    | .error e => .error e

/-- `VM::arg`: an index below the declared arity reads the stack slot at
`frame_pointer + n` (yielding a copy); a slot beyond the live stack is
`Underflow`; an index at or above the arity is an `Arity` error. -/
def VM.arg (vm : VM F) (n : Nat) : Except Fault (ControlFlow F × VM F) :=
  if n < vm.curFrame.arity then
    let index := vm.curFrame.framePointer + n
    if h : index < vm.stack.length then
      .ok (.Yield vm.stack[index], vm)
    else .error (.err .Underflow)
  else .error (.err (.Arity n vm.curFrame.arity))

/-- `VM::index`. -/
def VM.index (vm : VM F) : Except Fault (ControlFlow F × VM F) :=
  match vm.popAddr with
  | .error e => .error e
  | .ok (i, vm₁) =>
    match vm₁.popList with
    | .error e => .error e
    | .ok (lst, vm₂) =>
      if h : i < lst.length then
        match vm₂.push lst[i] with
        | .ok (_, vm₃) => .ok (.Advance, vm₃)
        | .error e => .error e
      else .error (.err (.IndexError i))

/-- `VM::dot`. -/
def VM.dot (vm : VM F) : Except Fault (ControlFlow F × VM F) :=
  match vm.popStr with
  | .error e => .error e
  | .ok (key, vm₁) =>
    match vm₁.popMap with
    | .error e => .error e
    | .ok (map, vm₂) =>
      match lookupKey key map with
      | some value =>
        (match vm₂.push value with
         | .ok (_, vm₃) => .ok (.Advance, vm₃)
         | .error e => .error e)
      | none => .error (.err (.KeyError key))

/-- `VM::expect`: non-consuming type check of the top of stack. -/
def VM.expect (vm : VM F) (t : TypeTag) : Except Fault (ControlFlow F × VM F) :=
  match vm.stack.getLast? with
  | some value =>
    let tt := value.getType
    if t = tt then .ok (.Advance, vm)
    else .error (.err (.TypeError (fromFlag t) tt))
  | none => .error (.err .Underflow)

/-- `VM::disp`, with the sink instantiated to the source's
`impl Output for Vec<Value>`: pop one operand and record it. -/
def VM.disp (vm : VM F) (_e : CairoOp) : Except Fault (ControlFlow F × VM F) :=
  match vm.pop with
  | .ok (v, vm') => .ok (.Advance, { vm' with outBuf := vm'.outBuf ++ [v] })
  | .error e => .error e

/-- `VM::dispatch`. -/
def VM.dispatch (fops : FloatOps F) (vm : VM F)
    (op : Opcode) (env : List (String × Value F)) :
    Except Fault (ControlFlow F × VM F) :=
  match op with
  | .LoadI addr => vm.load_immediate addr
  | .Load => vm.load
  | .Get => vm.get env
  | .Coerce t => VM.coerceOp fops vm t
  | .Binary op => VM.binop fops vm op
  | .Unary op => VM.unop fops vm op
  | .Call arity => vm.call arity
  | .Ret n => vm.ret n
  | .BranchTrue => vm.branch_true
  | .BranchFalse => vm.branch_false
  | .Branch => vm.branch
  | .Drop n => vm.drop n
  | .Dup n => vm.dup n
  | .Arg n => vm.arg n
  | .Index => vm.index
  | .Dot => vm.dot
  | .Expect t => vm.expect t
  | .Disp ef => vm.disp ef
  | .Break => .error (.err .DebugBreak)
  | .Halt => .error (.err .Halt)

/-- `VM::step`: fetch, dispatch, then apply the control-flow outcome
(`Yield` pushes, then advances). -/
def VM.step (fops : FloatOps F) (vm : VM F) (env : List (String × Value F)) :
    Except Fault (VM F) :=
  match vm.program.fetch vm.pc with
  | .error e => .error e
  | .ok opcode =>
    match VM.dispatch fops vm opcode env with
    | .error e => .error e
    | .ok (result, vm₁) =>
      match result with
      | .Advance => .ok { vm₁ with pc := vm₁.pc + 1 }
      | .Branch addr => .ok { vm₁ with pc := addr }
      | .Yield v =>
        match vm₁.push v with
        | .ok (_, vm₂) => .ok { vm₂ with pc := vm₂.pc + 1 }
        | .error e => .error e

/-- Iterated `step`. -/
def VM.stepN (fops : FloatOps F) (env : List (String × Value F)) :
    Nat → VM F → Except Fault (VM F)
  | 0, vm => .ok vm
  | n + 1, vm =>
    match VM.step fops vm env with
    | .ok vm' => VM.stepN fops env n vm'
    | .error e => .error e

/-- Observable outcome of a full run: normal completion, a VM error, a
panic escaping the error taxonomy, or fuel exhaustion (the source's loop
has no fuel and would still be running). -/
inductive ExecOut where
  | ok
  | errored : Error → ExecOut
  | panicked
  | spin
deriving DecidableEq

/-- The state reset at the top of `VM::exec`. -/
def VM.reset (vm : VM F) : VM F :=
  { vm with pc := 0, stack := [], callStack := [], curFrame := ⟨0, 0, 0⟩ }

/-- The `loop` of `VM::exec`: `Err(Halt)` means success, any other error
aborts, `Ok` continues. -/
def VM.execLoop (fops : FloatOps F) (env : List (String × Value F)) :
    Nat → VM F → ExecOut
  | 0, _ => .spin
  | fuel + 1, vm =>
    match VM.step fops vm env with
    | .ok vm' => VM.execLoop fops env fuel vm'
    | .error (.err .Halt) => .ok
    | .error (.err e) => .errored e
    | .error .panic => .panicked

/-- `VM::exec`: reset, then run the fetch-dispatch loop. -/
def VM.exec (fops : FloatOps F) (fuel : Nat) (vm : VM F)
    (env : List (String × Value F)) : ExecOut :=
  VM.execLoop fops env fuel vm.reset

end UVM

namespace UTC

/-!
Embedding of `src/typechecker.rs`.

The AST is the one the type checker consumes, which is the shape given in
spec §4.6: `Cond` carries only its case list, and statements include
`Guard` and omit `TypeDef` (the checker's exhaustive `match` has a `Guard`
arm and no `TypeDef` arm; the `ast.rs` in the tree is a later revision the
checker does not compile against).  The lexical environment is likewise
modelled from spec §4.7 — chained scopes with `root`, `chain`, `get`,
`define`, `import` — since the checker calls `Env::chain`/`Env::root`,
which the stale `env.rs` in the tree lacks.  Floats again stay abstract:
`F` is the payload carrier and `beqF` models `==` on `f64`.

Source recursion over the AST is structural; the embedding uses a fuel
argument, with `TCFault.fuel` marking exhaustion (never reached at the
fuel bounds the theorems use).
-/

mutual

/-- Surface types (`TypeTag` in `ast.rs`). -/
inductive TypeTag (F : Type) where
  | Unit : TypeTag F
  | Bool : TypeTag F
  | Int : TypeTag F
  | Float : TypeTag F
  | Str : TypeTag F
  | Point : TypeTag F
  | Tuple : List (TypeTag F) → TypeTag F
  | List : TypeTag F → TypeTag F
  | Map : List (String × TypeTag F) → TypeTag F
  | Record : List (String × Member F) → TypeTag F
  | Lambda : List (TypeTag F) → TypeTag F → TypeTag F
  | Union : List (TypeTag F) → TypeTag F

/-- Record fields (`Member` in `ast.rs`). -/
inductive Member (F : Type) where
  | Field : TypeTag F → Member F
  | Method : List (String × TypeTag F) → TypeTag F → Expr F → Member F
  | StaticValue : Expr F → Member F
  | StaticMethod : List (String × TypeTag F) → TypeTag F → Expr F → Member F

/-- Surface expressions (`Expr`; `Cond` as the checker consumes it). -/
inductive Expr (F : Type) where
  | Unit : Expr F
  | Bool : Bool → Expr F
  | Int : Int → Expr F
  | Float : F → Expr F
  | Str : String → Expr F
  | Point : F → F → Expr F
  | List : List (Expr F) → Expr F
  | Map : List (String × Expr F) → Expr F
  | Id : String → Expr F
  | Dot : Expr F → String → Expr F
  | Index : Expr F → Expr F → Expr F
  | Cond : List (Expr F × Expr F) → Expr F
  | Block : List (Statement F) → Expr F → Expr F
  | BinOp : UVM.BinOp → Expr F → Expr F → Expr F
  | UnOp : UVM.UnOp → Expr F → Expr F
  | Call : Expr F → List (Expr F) → Expr F
  | Lambda : List (String × TypeTag F) → TypeTag F → Expr F → Expr F

/-- Surface statements (`Statement` as the checker consumes it). -/
inductive Statement (F : Type) where
  | ExprForEffect : Expr F → Statement F
  | Emit : String → List (Expr F) → Statement F
  | Def : String → Expr F → Statement F
  | ListIter : String → Expr F → Statement F → Statement F
  | MapIter : String → String → Expr F → Statement F → Statement F
  | While : Expr F → Statement F → Statement F
  | Guard : List (Expr F × Statement F) → Option (Statement F) → Statement F

end

variable {F : Type}

set_option maxHeartbeats 1600000 in
mutual

/-- `PartialEq` on surface types: structural, with `beqF` at `f64`
payloads and the source's unordered `HashMap` equality on `Map`. -/
def beqTT (beqF : F → F → Bool) : TypeTag F → TypeTag F → Bool
  | .Unit, .Unit => true
  | .Bool, .Bool => true
  | .Int, .Int => true
  | .Float, .Float => true
  | .Str, .Str => true
  | .Point, .Point => true
  | .Tuple a, .Tuple b => beqTTs beqF a b
  | .List a, .List b => beqTT beqF a b
  | .Map a, .Map b => a.length == b.length && beqTTIncl beqF a b
  | .Record a, .Record b => beqMemberPairs beqF a b
  | .Lambda a r, .Lambda b s => beqTTs beqF a b && beqTT beqF r s
  | .Union a, .Union b => beqTTs beqF a b
  | _, _ => false

/-- Elementwise `PartialEq` on type sequences. -/
def beqTTs (beqF : F → F → Bool) : List (TypeTag F) → List (TypeTag F) → Bool
  | [], [] => true
  | x :: xs, y :: ys => beqTT beqF x y && beqTTs beqF xs ys
  | _, _ => false

/-- Key lookup in a type map (first match). -/
def lookupT (k : String) : List (String × TypeTag F) → Option (TypeTag F)
  | [] => none
  | (k', v) :: rest => if k = k' then some v else lookupT k rest

/-- Inclusion half of `HashMap` equality on type maps. -/
def beqTTIncl (beqF : F → F → Bool) :
    List (String × TypeTag F) → List (String × TypeTag F) → Bool
  | [], _ => true
  | (k, v) :: rest, other =>
    (match lookupT k other with
     | some w => beqTT beqF v w
     | none => false) && beqTTIncl beqF rest other

/-- `PartialEq` on named-argument lists (`AList`, ordered). -/
def beqArgPairs (beqF : F → F → Bool) :
    List (String × TypeTag F) → List (String × TypeTag F) → Bool
  | [], [] => true
  | (k, v) :: xs, (k', w) :: ys =>
    k == k' && beqTT beqF v w && beqArgPairs beqF xs ys
  | _, _ => false

/-- `PartialEq` on record members. -/
def beqMember (beqF : F → F → Bool) : Member F → Member F → Bool
  | .Field a, .Field b => beqTT beqF a b
  | .Method xs r e, .Method ys s f =>
    beqArgPairs beqF xs ys && beqTT beqF r s && beqExpr beqF e f
  | .StaticValue e, .StaticValue f => beqExpr beqF e f
  | .StaticMethod xs r e, .StaticMethod ys s f =>
    beqArgPairs beqF xs ys && beqTT beqF r s && beqExpr beqF e f
  | _, _ => false

/-- `PartialEq` on record member lists (`AList`, ordered). -/
def beqMemberPairs (beqF : F → F → Bool) :
    List (String × Member F) → List (String × Member F) → Bool
  | [], [] => true
  | (k, v) :: xs, (k', w) :: ys =>
    k == k' && beqMember beqF v w && beqMemberPairs beqF xs ys
  | _, _ => false

/-- `PartialEq` on surface expressions. -/
def beqExpr (beqF : F → F → Bool) : Expr F → Expr F → Bool
  | .Unit, .Unit => true
  | .Bool a, .Bool b => a == b
  | .Int a, .Int b => a == b
  | .Float a, .Float b => beqF a b
  | .Str a, .Str b => a == b
  | .Point a c, .Point b d => beqF a b && beqF c d
  | .List a, .List b => beqExprs beqF a b
  | .Map a, .Map b => a.length == b.length && beqExprIncl beqF a b
  | .Id a, .Id b => a == b
  | .Dot a k, .Dot b l => beqExpr beqF a b && k == l
  | .Index a i, .Index b j => beqExpr beqF a b && beqExpr beqF i j
  | .Cond a, .Cond b => beqCondCases beqF a b
  | .Block xs r, .Block ys s => beqStmts beqF xs ys && beqExpr beqF r s
  | .BinOp o a c, .BinOp p b d => o == p && beqExpr beqF a b && beqExpr beqF c d
  | .UnOp o a, .UnOp p b => o == p && beqExpr beqF a b
  | .Call f xs, .Call g ys => beqExpr beqF f g && beqExprs beqF xs ys
  | .Lambda xs r e, .Lambda ys s f =>
    beqArgPairs beqF xs ys && beqTT beqF r s && beqExpr beqF e f
  | _, _ => false

/-- Elementwise `PartialEq` on expression sequences. -/
def beqExprs (beqF : F → F → Bool) : List (Expr F) → List (Expr F) → Bool
  | [], [] => true
  | x :: xs, y :: ys => beqExpr beqF x y && beqExprs beqF xs ys
  | _, _ => false

/-- Key lookup in an expression map (first match). -/
def lookupE (k : String) : List (String × Expr F) → Option (Expr F)
  | [] => none
  | (k', v) :: rest => if k = k' then some v else lookupE k rest

/-- Inclusion half of `HashMap` equality on expression maps. -/
def beqExprIncl (beqF : F → F → Bool) :
    List (String × Expr F) → List (String × Expr F) → Bool
  | [], _ => true
  | (k, v) :: rest, other =>
    (match lookupE k other with
     | some w => beqExpr beqF v w
     | none => false) && beqExprIncl beqF rest other

/-- `PartialEq` on `Cond` case lists. -/
def beqCondCases (beqF : F → F → Bool) :
    List (Expr F × Expr F) → List (Expr F × Expr F) → Bool
  | [], [] => true
  | (p, e) :: xs, (q, f) :: ys =>
    beqExpr beqF p q && beqExpr beqF e f && beqCondCases beqF xs ys
  | _, _ => false

/-- `PartialEq` on statements. -/
def beqStmt (beqF : F → F → Bool) : Statement F → Statement F → Bool
  | .ExprForEffect a, .ExprForEffect b => beqExpr beqF a b
  | .Emit n xs, .Emit m ys => n == m && beqExprs beqF xs ys
  | .Def n a, .Def m b => n == m && beqExpr beqF a b
  | .ListIter n l a, .ListIter m k b =>
    n == m && beqExpr beqF l k && beqStmt beqF a b
  | .MapIter n v l a, .MapIter m w k b =>
    n == m && v == w && beqExpr beqF l k && beqStmt beqF a b
  | .While c a, .While d b => beqExpr beqF c d && beqStmt beqF a b
  | .Guard xs d, .Guard ys e =>
    beqGuardCases beqF xs ys &&
      (match d, e with
       | none, none => true
       | some a, some b => beqStmt beqF a b
       | _, _ => false)
  | _, _ => false

/-- Elementwise `PartialEq` on statement sequences. -/
def beqStmts (beqF : F → F → Bool) : List (Statement F) → List (Statement F) → Bool
  | [], [] => true
  | x :: xs, y :: ys => beqStmt beqF x y && beqStmts beqF xs ys
  | _, _ => false

/-- `PartialEq` on `Guard` clause lists. -/
def beqGuardCases (beqF : F → F → Bool) :
    List (Expr F × Statement F) → List (Expr F × Statement F) → Bool
  | [], [] => true
  | (p, s) :: xs, (q, t) :: ys =>
    beqExpr beqF p q && beqStmt beqF s t && beqGuardCases beqF xs ys
  | _, _ => false

end

/-- Type-checker errors (`TypeError` in `typechecker.rs`). -/
inductive TypeError (F : Type) where
  | Mismatch : TypeTag F → TypeTag F → TypeError F
  | NotAList : TypeTag F → TypeError F
  | NotAMap : TypeTag F → TypeError F
  | Undefined : String → TypeError F
  | ListIndexMustBeInt : TypeTag F → TypeError F
  | KeyError : List (String × TypeTag F) → String → TypeError F
  | NotOneOf : List (TypeTag F) → TypeError F
  | NotIterable : TypeTag F → TypeError F
  | NotCallable : TypeTag F → TypeError F
  | ArgError : List (TypeTag F) → List (TypeTag F) → TypeError F
  | NotImplemented : TypeError F

/-- Failure channel of the embedded checker: a checker `TypeError`, the
`assert!(k != v)` panic in `MapIter` checking, or fuel exhaustion (an
artefact of the embedding, unreachable at sufficient fuel). -/
inductive TCFault (F : Type) where
  | terr : TypeError F → TCFault F
  | panic : TCFault F
  | fuel : TCFault F

/-- One lexical scope: name-to-type bindings, newest first. -/
abbrev Scope (F : Type) := List (String × TypeTag F)

/-- A chain of scopes, innermost first (spec §4.7). -/
abbrev TEnv (F : Type) := List (Scope F)

/-- `Env::get`: walk child scope to parent, first hit wins. -/
def envGet (name : String) : TEnv F → Option (TypeTag F)
  | [] => none
  | scope :: rest =>
    match lookupT name scope with
    | some t => some t
    | none => envGet name rest

/-- `Env::define`: insert into the innermost scope. -/
def envDefine (name : String) (t : TypeTag F) : TEnv F → TEnv F
  | [] => [[(name, t)]]
  | scope :: rest => ((name, t) :: scope) :: rest

/-- `Env::chain`: a child scope over the given parent chain. -/
def envChain (env : TEnv F) : TEnv F := [] :: env

/-- `Env::root`. -/
def envRoot : TEnv F := ([] : Scope F) :: []

/-- `Env::import`: define every pair into the innermost scope. -/
def envImport (pairs : List (String × TypeTag F)) (env : TEnv F) : TEnv F :=
  pairs.foldl (fun acc p => envDefine p.1 p.2 acc) env

/-- The checker's state (`TypeChecker { types }`). -/
structure TypeChecker (F : Type) where
  types : TEnv F

/-- `Vec::dedup` on a type sequence: drop each element equal (under
`PartialEq`) to the retained element immediately before it. -/
def dedup (beqF : F → F → Bool) : List (TypeTag F) → List (TypeTag F)
  | [] => []
  | [x] => [x]
  | x :: y :: rest =>
    if beqTT beqF y x then dedup beqF (x :: rest)
    else x :: dedup beqF (y :: rest)
termination_by l => l.length

/-- `TypeChecker::narrow`: adjacent-dedup, then empty ↦ `Unit`,
singleton ↦ the type, otherwise `Union`. -/
def narrow (beqF : F → F → Bool) (types : List (TypeTag F)) : TypeTag F :=
  match dedup beqF types with
  | [] => .Unit
  | [x] => x
  | l => .Union l

/-- `TypeChecker::lookup`: field lookup in a map type. -/
def lookupField (fields : List (String × TypeTag F)) (name : String) :
    Except (TCFault F) (TypeTag F) :=
  match lookupT name fields with
  | some t => .ok t
  | none => .error (.terr (.KeyError fields name))

/-- `map_to_seq` from `ast.rs`: the value column of a map. -/
def map_to_seq (items : List (String × TypeTag F)) : List (TypeTag F) :=
  items.map (·.2)

/-- Overwriting insert, modelling `HashMap` collection (last write to a
key wins). -/
def insertKV (k : String) (v : TypeTag F) :
    List (String × TypeTag F) → List (String × TypeTag F)
  | [] => [(k, v)]
  | (k', w) :: rest =>
    if k = k' then (k, v) :: rest else (k', w) :: insertKV k v rest

/-- Collect evaluated fields into a map. -/
def collectMap : List (String × TypeTag F) → List (String × TypeTag F) :=
  List.foldl (fun acc p => insertKV p.1 p.2 acc) []

/-- `TypeChecker::eval_id`: environment lookup. -/
def eval_id (tc : TypeChecker F) (name : String) :
    Except (TCFault F) (TypeTag F) :=
  match envGet name tc.types with
  | some t => .ok t
  | none => .error (.terr (.Undefined name))

mutual

/-- `TypeChecker::eval_expr`. -/
def eval_expr (beqF : F → F → Bool) :
    Nat → TypeChecker F → Expr F → Except (TCFault F) (TypeTag F)
  | 0, _, _ => .error .fuel
  | n + 1, tc, expr =>
    match expr with
    | .Unit => .ok .Unit
    | .Bool _ => .ok .Bool
    | .Int _ => .ok .Int
    | .Float _ => .ok .Float
    | .Str _ => .ok .Str
    | .Point _ _ => .ok .Point
    | .List items => eval_list beqF n tc items
    | .Map items => eval_map beqF n tc items
    | .Id name => eval_id tc name
    | .Dot obj key => eval_dot beqF n tc obj key
    | .Index lst i => eval_index beqF n tc lst i
    | .Cond cases => eval_cond beqF n tc cases
    | .Block stmts ret => eval_block beqF n tc stmts ret
    | .BinOp op l r => eval_binop beqF n tc op l r
    | .UnOp op operand => eval_unop beqF n tc op operand
    | .Call func args => eval_call beqF n tc func args
    | .Lambda args ret body => eval_lambda beqF n tc args ret body

/-- Collect the types of a sequence of expressions, propagating the first
error (the `collect()` into `Result<Seq<_>, _>`). -/
def evalExprs (beqF : F → F → Bool) :
    Nat → TypeChecker F → List (Expr F) → Except (TCFault F) (List (TypeTag F))
  | 0, _, _ => .error .fuel
  | _ + 1, _, [] => .ok []
  | n + 1, tc, e :: rest =>
    match eval_expr beqF n tc e with
    | .ok t =>
      (match evalExprs beqF n tc rest with
       | .ok ts => .ok (t :: ts)
       | .error err => .error err)
    | .error err => .error err

/-- `TypeChecker::eval_list`. -/
def eval_list (beqF : F → F → Bool) :
    Nat → TypeChecker F → List (Expr F) → Except (TCFault F) (TypeTag F)
  | 0, _, _ => .error .fuel
  | n + 1, tc, items =>
    match evalExprs beqF n tc items with
    | .ok ts => .ok (.List (narrow beqF ts))
    | .error err => .error err

/-- Evaluate map fields pairwise. -/
def evalFields (beqF : F → F → Bool) :
    Nat → TypeChecker F → List (String × Expr F) →
    Except (TCFault F) (List (String × TypeTag F))
  | 0, _, _ => .error .fuel
  | _ + 1, _, [] => .ok []
  | n + 1, tc, (k, e) :: rest =>
    match eval_expr beqF n tc e with
    | .ok t =>
      (match evalFields beqF n tc rest with
       | .ok ts => .ok ((k, t) :: ts)
       | .error err => .error err)
    | .error err => .error err

/-- `TypeChecker::eval_map`. -/
def eval_map (beqF : F → F → Bool) :
    Nat → TypeChecker F → List (String × Expr F) → Except (TCFault F) (TypeTag F)
  | 0, _, _ => .error .fuel
  | n + 1, tc, fields =>
    match evalFields beqF n tc fields with
    | .ok ts => .ok (.Map (collectMap ts))
    | .error err => .error err

/-- `TypeChecker::eval_dot`. -/
def eval_dot (beqF : F → F → Bool) :
    Nat → TypeChecker F → Expr F → String → Except (TCFault F) (TypeTag F)
  | 0, _, _, _ => .error .fuel
  | n + 1, tc, obj, field =>
    match eval_expr beqF n tc obj with
    | .ok (.Map items) => lookupField items field
    | .ok other => .error (.terr (.NotAMap other))
    | .error err => .error err

/-- `TypeChecker::eval_index`. -/
def eval_index (beqF : F → F → Bool) :
    Nat → TypeChecker F → Expr F → Expr F → Except (TCFault F) (TypeTag F)
  | 0, _, _, _ => .error .fuel
  | n + 1, tc, lst, index =>
    match eval_expr beqF n tc lst with
    | .error err => .error err
    | .ok lstT =>
      match eval_expr beqF n tc index with
      | .error err => .error err
      | .ok indexT =>
        if beqTT beqF indexT .Int then
          match lstT with
          | .List item => .ok item
          | _ => .error (.terr (.NotAList lstT))
        else .error (.terr (.ListIndexMustBeInt indexT))

/-- The predicate pass of `eval_cond`: collect predicate types. -/
def evalCondFst (beqF : F → F → Bool) :
    Nat → TypeChecker F → List (Expr F × Expr F) →
    Except (TCFault F) (List (TypeTag F))
  | 0, _, _ => .error .fuel
  | _ + 1, _, [] => .ok []
  | n + 1, tc, (p, _) :: rest =>
    match eval_expr beqF n tc p with
    | .ok t =>
      (match evalCondFst beqF n tc rest with
       | .ok ts => .ok (t :: ts)
       | .error err => .error err)
    | .error err => .error err

/-- The result pass of `eval_cond`: collect case-result types. -/
def evalCondSnd (beqF : F → F → Bool) :
    Nat → TypeChecker F → List (Expr F × Expr F) →
    Except (TCFault F) (List (TypeTag F))
  | 0, _, _ => .error .fuel
  | _ + 1, _, [] => .ok []
  | n + 1, tc, (_, e) :: rest =>
    match eval_expr beqF n tc e with
    | .ok t =>
      (match evalCondSnd beqF n tc rest with
       | .ok ts => .ok (t :: ts)
       | .error err => .error err)
    | .error err => .error err

/-- `TypeChecker::eval_cond`: predicate errors propagate first; a non-Bool
predicate is a `Mismatch`; otherwise the result is `narrow` over the case
results. -/
def eval_cond (beqF : F → F → Bool) :
    Nat → TypeChecker F → List (Expr F × Expr F) → Except (TCFault F) (TypeTag F)
  | 0, _, _ => .error .fuel
  | n + 1, tc, cases =>
    match evalCondFst beqF n tc cases with
    | .error err => .error err
    | .ok conds =>
      match conds.find? (fun t => !(beqTT beqF t .Bool)) with
      | none =>
        (match evalCondSnd beqF n tc cases with
         | .ok ts => .ok (narrow beqF ts)
         | .error err => .error err)
      | some wrong => .error (.terr (.Mismatch wrong .Bool))

/-- Thread `check_statement` through a statement list (the `for` loop of
`eval_block`, with the source's interior mutability made explicit). -/
def checkStmts (beqF : F → F → Bool) :
    Nat → TypeChecker F → List (Statement F) → Except (TCFault F) (TypeChecker F)
  | 0, _, _ => .error .fuel
  | _ + 1, tc, [] => .ok tc
  | n + 1, tc, s :: rest =>
    match check_statement beqF n tc s with
    | .ok tc' => checkStmts beqF n tc' rest
    | .error err => .error err

/-- `TypeChecker::eval_block`: check the statements in a child scope,
then take the type of the trailing expression there. -/
def eval_block (beqF : F → F → Bool) :
    Nat → TypeChecker F → List (Statement F) → Expr F →
    Except (TCFault F) (TypeTag F)
  | 0, _, _, _ => .error .fuel
  | n + 1, tc, stmts, ret =>
    match checkStmts beqF n ⟨envChain tc.types⟩ stmts with
    | .ok sub => eval_expr beqF n sub ret
    | .error err => .error err

/-- `TypeChecker::eval_binop`: `Eq` on equal types yields that type, the
four same-tag base rows follow (with the source's `(Str,Str) → Float`
behaviour preserved), anything else is a `Mismatch`. -/
def eval_binop (beqF : F → F → Bool) :
    Nat → TypeChecker F → UVM.BinOp → Expr F → Expr F →
    Except (TCFault F) (TypeTag F)
  | 0, _, _, _, _ => .error .fuel
  | n + 1, tc, op, l, r =>
    match eval_expr beqF n tc l with
    | .error err => .error err
    | .ok lT =>
      match eval_expr beqF n tc r with
      | .error err => .error err
      | .ok rT =>
        if op == UVM.BinOp.Eq && beqTT beqF lT rT then .ok lT
        else
          match lT, rT with
          | .Bool, .Bool => .ok .Bool
          | .Int, .Int => .ok .Int
          | .Float, .Float => .ok .Float
          | .Str, .Str => .ok .Float
          | _, _ => .error (.terr (.Mismatch lT rT))

/-- `TypeChecker::eval_unop`. -/
def eval_unop (beqF : F → F → Bool) :
    Nat → TypeChecker F → UVM.UnOp → Expr F → Except (TCFault F) (TypeTag F)
  | 0, _, _, _ => .error .fuel
  | n + 1, tc, op, operand =>
    match eval_expr beqF n tc operand with
    | .error err => .error err
    | .ok t =>
      match op, t with
      | .Not, .Bool => .ok .Bool
      | .Not, _ => .error (.terr (.Mismatch t .Bool))
      | .Neg, .Int => .ok .Int
      | .Neg, .Float => .ok .Float
      | .Neg, _ => .error (.terr (.Mismatch t (.Union [.Int, .Float])))
      | .Abs, .Int => .ok .Int
      | .Abs, .Float => .ok .Float
      | .Abs, _ => .error (.terr (.Mismatch t (.Union [.Int, .Float])))

/-- `TypeChecker::eval_call`.  The source compares the evaluated argument
types `args` against `args` — itself — rather than against the formals
`aargs`, so the mismatch arm is tied to `args == args`. -/
def eval_call (beqF : F → F → Bool) :
    Nat → TypeChecker F → Expr F → List (Expr F) → Except (TCFault F) (TypeTag F)
  | 0, _, _, _ => .error .fuel
  | n + 1, tc, func, args =>
    match eval_expr beqF n tc func with
    | .error err => .error err
    | .ok funcT =>
      match evalExprs beqF n tc args with
      | .error err => .error err
      | .ok argTs =>
        match funcT with
        | .Lambda aargs ret =>
          if beqTTs beqF argTs argTs then .ok ret
          else .error (.terr (.ArgError argTs aargs))
        | _ => .error (.terr (.NotCallable funcT))

/-- `TypeChecker::eval_lambda`. -/
def eval_lambda (beqF : F → F → Bool) :
    Nat → TypeChecker F → List (String × TypeTag F) → TypeTag F → Expr F →
    Except (TCFault F) (TypeTag F)
  | 0, _, _, _, _ => .error .fuel
  | n + 1, tc, args, ret, body =>
    match eval_expr beqF n ⟨envImport args (envChain tc.types)⟩ body with
    | .error err => .error err
    | .ok bodyT =>
      if beqTT beqF bodyT ret then .ok (.Lambda (args.map (·.2)) ret)
      else .error (.terr (.Mismatch ret bodyT))

/-- `TypeChecker::is_list`. -/
def is_list (beqF : F → F → Bool) :
    Nat → TypeChecker F → Expr F → Except (TCFault F) (TypeTag F)
  | 0, _, _ => .error .fuel
  | n + 1, tc, expr =>
    match eval_expr beqF n tc expr with
    | .ok (.List item) => .ok item
    | .ok other => .error (.terr (.NotIterable other))
    | .error err => .error err

/-- `TypeChecker::is_map`: the narrowed union of the value types. -/
def is_map (beqF : F → F → Bool) :
    Nat → TypeChecker F → Expr F → Except (TCFault F) (TypeTag F)
  | 0, _, _ => .error .fuel
  | n + 1, tc, expr =>
    match eval_expr beqF n tc expr with
    | .ok (.Map items) => .ok (narrow beqF (map_to_seq items))
    | .ok other => .error (.terr (.NotIterable other))
    | .error err => .error err

/-- `TypeChecker::is_bool`. -/
def is_bool (beqF : F → F → Bool) :
    Nat → TypeChecker F → Expr F → Except (TCFault F) Unit
  | 0, _, _ => .error .fuel
  | n + 1, tc, expr =>
    match eval_expr beqF n tc expr with
    | .ok .Bool => .ok ()
    | .ok other => .error (.terr (.Mismatch other .Bool))
    | .error err => .error err

/-- `TypeChecker::is_unit`. -/
def is_unit (beqF : F → F → Bool) :
    Nat → TypeChecker F → Expr F → Except (TCFault F) Unit
  | 0, _, _ => .error .fuel
  | n + 1, tc, expr =>
    match eval_expr beqF n tc expr with
    | .ok .Unit => .ok ()
    | .ok other => .error (.terr (.Mismatch other .Unit))
    | .error err => .error err

/-- The argument-evaluation loop of the `Emit` arm. -/
def emitExprs (beqF : F → F → Bool) :
    Nat → TypeChecker F → List (Expr F) → Except (TCFault F) Unit
  | 0, _, _ => .error .fuel
  | _ + 1, _, [] => .ok ()
  | n + 1, tc, e :: rest =>
    match eval_expr beqF n tc e with
    | .ok _ => emitExprs beqF n tc rest
    | .error err => .error err

/-- The clause loop of the `Guard` arm, threading the checker state. -/
def checkGuards (beqF : F → F → Bool) :
    Nat → TypeChecker F → List (Expr F × Statement F) →
    Except (TCFault F) (TypeChecker F)
  | 0, _, _ => .error .fuel
  | _ + 1, tc, [] => .ok tc
  | n + 1, tc, (pred, body) :: rest =>
    match is_bool beqF n tc pred with
    | .error err => .error err
    | .ok _ =>
      match check_statement beqF n tc body with
      | .ok tc' => checkGuards beqF n tc' rest
      | .error err => .error err

/-- `TypeChecker::check_statement`, with the source's interior mutation of
the innermost scope made explicit by returning the updated checker. -/
def check_statement (beqF : F → F → Bool) :
    Nat → TypeChecker F → Statement F → Except (TCFault F) (TypeChecker F)
  | 0, _, _ => .error .fuel
  | n + 1, tc, stmt =>
    match stmt with
    | .ExprForEffect body =>
      (match is_unit beqF n tc body with
       | .ok _ => .ok tc
       | .error err => .error err)
    | .Emit _op exprs =>
      (match emitExprs beqF n tc exprs with
       | .ok _ => .ok tc
       | .error err => .error err)
    | .Def name val =>
      (match eval_expr beqF n tc val with
       | .ok t => .ok ⟨envDefine name t tc.types⟩
       | .error err => .error err)
    | .ListIter iter lst body =>
      (match is_list beqF n tc lst with
       | .error err => .error err
       | .ok item =>
         match check_statement beqF n ⟨envDefine iter item (envChain tc.types)⟩ body with
         | .ok _ => .ok tc
         | .error err => .error err)
    | .MapIter k v mp body =>
      if k = v then .error .panic
      else
        (match is_map beqF n tc mp with
         | .error err => .error err
         | .ok item =>
           match check_statement beqF n
               ⟨envDefine v item (envDefine k .Str (envChain tc.types))⟩ body with
           | .ok _ => .ok tc
           | .error err => .error err)
    | .While cond body =>
      (match is_bool beqF n tc cond with
       | .error err => .error err
       | .ok _ => check_statement beqF n tc body)
    | .Guard clauses default =>
      (match checkGuards beqF n tc clauses with
       | .error err => .error err
       | .ok tc' =>
         match default with
         | some st => check_statement beqF n tc' st
         | none => .ok tc')

end

/-- A surface program (`Program` in `ast.rs`). -/
structure SProgram (F : Type) where
  description : String
  params : List (String × (TypeTag F × String))
  code : List (Statement F)

/-- `TypeChecker::check_program`. -/
def check_program (beqF : F → F → Bool) (fuel : Nat) (tc : TypeChecker F)
    (prog : SProgram F) : Except (TCFault F) Unit :=
  match checkStmts beqF fuel tc prog.code with
  | .ok _ => .ok ()
  | .error err => .error err

/-- Float comparison for the `Unit` instantiation used by concrete
examples. -/
def beqU : Unit → Unit → Bool := fun _ _ => true

/-- A checker whose root scope binds `f` to `Lambda([Int], Bool)`. -/
def tcWithF : TypeChecker Unit := ⟨[[("f", .Lambda [.Int] .Bool)]]⟩

end UTC

namespace UVM

/-- The two-literal addition program of the source's `test_simple`. -/
def prog1 : Program Unit :=
  ⟨[.LoadI 0, .LoadI 1, .Binary .Add], [.Int 1, .Int 2]⟩

/-- A program whose first instruction is `Ret(0)` — a return with no
matching call. -/
def progRet : Program Unit := ⟨[.Ret 0], []⟩

/-- A program that calls a subroutine with one argument, whose body drops
its own argument slot and then executes `Arg(0)`. -/
def progArgGone : Program Unit :=
  ⟨[.LoadI 0, .LoadI 1, .Call 1, .Halt, .Drop 1, .Arg 0],
   [.Int 42, .Addr 4]⟩

/-- The state `progArgGone` reaches just before its `Arg(0)`: inside a
frame of declared arity 1 whose argument slot has been dropped. -/
def argGoneVM : VM Unit :=
  { program := progArgGone
    stack := []
    callStack := [⟨0, 0, 0⟩]
    curFrame := ⟨3, 0, 1⟩
    pc := 5
    cap := 5
    outBuf := [] }

/-- A machine whose operand stack holds exactly one value, and that value
is not an `Addr`. -/
def oneIntVM : VM Unit :=
  { program := ⟨[], []⟩
    stack := [.Int 1]
    callStack := []
    curFrame := ⟨0, 0, 0⟩
    pc := 0
    cap := 3
    outBuf := [] }

/-- A machine whose operand stack is at capacity. -/
def fullVM : VM Unit :=
  { program := ⟨[], []⟩
    stack := [.Int 1, .Int 2]
    callStack := []
    curFrame := ⟨0, 0, 0⟩
    pc := 0
    cap := 2
    outBuf := [] }

/-- A machine state inside a frame of arity 1 whose argument slot is
present, used to witness the in-range behaviour of `Arg`. -/
def argHereVM : VM Unit :=
  { program := ⟨[.LoadI 0, .LoadI 1, .Call 1, .Halt, .Arg 0], [.Int 42, .Addr 4]⟩
    stack := [.Int 42]
    callStack := [⟨0, 0, 0⟩]
    curFrame := ⟨3, 0, 1⟩
    pc := 4
    cap := 5
    outBuf := [] }

/-- The (source, target) tag pairs of the coercion table in spec §4.1:
`Bool→{Bool,Int}`, `Int→{Bool,Int,Float}`, `Float→{Int,Float}`,
`Str/List/Map→{Bool}`. -/
def tableDefined : TypeTag → TypeTag → Bool
  | .Bool, .Bool => true
  | .Bool, .Int => true
  | .Int, .Bool => true
  | .Int, .Int => true
  | .Int, .Float => true
  | .Float, .Int => true
  | .Float, .Float => true
  | .Str, .Bool => true
  | .List, .Bool => true
  | .Map, .Bool => true
  | _, _ => false

/-- `n` distinct integer literals, the assembler input that overflows the
16-bit constant pool when `n > 65536`. -/
def intVals (n : Nat) : List (Value Unit) :=
  (List.range n).map (fun i => .Int (Int.ofNat i))

/-- The same literals as assembler instructions. -/
def intInsns (n : Nat) : List (Insn Unit) :=
  (intVals n).map .Val

end UVM

/-! ## Theorems -/

/-- C1: the claim says `exec(P, E)` always terminates with `Ok(())` or one
of the enumerated error kinds, naming `Ret` with no matching `Call` as an
example kept inside the taxonomy.  In fact `VM::ret` restores the caller
frame with `call_stack.pop().unwrap()`, so the one-instruction program
`[Ret(0)]` panics: the outcome is outside the error taxonomy. -/
theorem UVM.exec_ret_without_call_panics :
    UVM.VM.exec UVM.unitFloat 5 (UVM.VM.new UVM.progRet 4) [] = .panicked ∧
    UVM.ExecOut.panicked ≠ UVM.ExecOut.ok := ⟨rfl, by decide⟩

/-- Tag-mismatched values compare as `false` under the `PartialEq`
model. -/
theorem UVM.beqV_of_ne_tags {F : Type} (feq : F → F → Bool) (a b : UVM.Value F)
    (h : a.getType ≠ b.getType) : UVM.beqV feq a b = false := by
  cases a <;> cases b <;> first
    | rfl
    | exact absurd rfl h

/-- `Value::eq` agrees with the boolean `PartialEq` model on every pair. -/
theorem UVM.eq_eq_beqV {F : Type} (fops : UVM.FloatOps F) (a b : UVM.Value F) :
    UVM.Value.eq fops a b = .ok (.Bool (UVM.beqV fops.feq a b)) := by
  cases a <;> cases b <;> rfl

/-- C2: for every pair of values, `eq` returns `Ok` of some `Bool` and
never errors; values with different tags compare as `Bool(false)`; values
with the same tag compare by payload (`feq` on floats) or structurally
(strings, lists elementwise, maps by size-and-inclusion). -/
theorem UVM.eq_never_errors {F : Type} (fops : UVM.FloatOps F)
    (a b : UVM.Value F) :
    (∃ r : Bool, UVM.Value.eq fops a b = .ok (.Bool r)) ∧
    (a.getType ≠ b.getType → UVM.Value.eq fops a b = .ok (.Bool false)) ∧
    UVM.Value.eq fops a b = .ok (.Bool (UVM.beqV fops.feq a b)) := by
  refine ⟨⟨_, UVM.eq_eq_beqV fops a b⟩, fun h => ?_, UVM.eq_eq_beqV fops a b⟩
  rw [UVM.eq_eq_beqV fops a b, UVM.beqV_of_ne_tags fops.feq a b h]

/-- Witness for the hypothesis of `UVM.eq_never_errors`: an `Int`/`Bool`
pair carries different tags and compares as `false`. -/
theorem UVM.eq_never_errors_witness :
    UVM.Value.eq UVM.unitFloat (.Int 1) (.Bool true) = .ok (.Bool false) :=
  (UVM.eq_never_errors UVM.unitFloat (.Int 1) (.Bool true)).2.1 (by decide)

set_option maxHeartbeats 4000000 in
/-- C3: the claim says `eval_call` compares the argument types against the
lambda's formals and returns `ArgError` on mismatch.  The source compares
the argument list against itself (`args == args`), so a zero-argument call
and a wrongly-typed call of `f : Lambda([Int], Bool)` both type-check to
`Bool` instead of `ArgError`. -/
theorem UTC.eval_call_ignores_formals :
    UTC.eval_call UTC.beqU 10 UTC.tcWithF (.Id "f") [] = .ok .Bool ∧
    UTC.eval_call UTC.beqU 10 UTC.tcWithF (.Id "f") [.Str "x"] = .ok .Bool := by
  constructor <;>
    simp [UTC.eval_call, UTC.eval_expr, UTC.eval_id, UTC.evalExprs,
      UTC.tcWithF, UTC.envGet, UTC.lookupT, UTC.beqTTs, UTC.beqTT, UTC.beqU]

/-- C7: the claim says `add` on `Int` operands traps with a VM error when
the exact result leaves the `i64` range.  The source computes Rust `a + b`,
which wraps in release builds (and panics in debug builds); no VM error is
produced: `(i64::MAX) + 1` evaluates to `Ok(Int(i64::MIN))`. -/
theorem UVM.add_overflow_wraps :
    UVM.Value.add UVM.unitFloat (.Int (2 ^ 63 - 1)) (.Int 1)
      = .ok (.Int (-(2 ^ 63))) := by
  norm_num [UVM.Value.add, UVM.wrap64]

/-- C6 counterexample: the claim says every combination outside the
coercion table fails with a `TypeError` "as opposed to … `TypeMismatch`".
The fall-through arm of `Value::coerce` builds `TypeMismatch(source tag,
target tag)`. -/
theorem UVM.coerce_counterexample :
    UVM.Value.coerce UVM.unitFloat (.Bool true) .Addr
      = .error (.err (.TypeMismatch .Bool .Addr)) := rfl

/-- C6 amended: `coerce` realises exactly the spec table —
`Bool→{Bool, Int(0/1)}`, `Int→{Bool(v≠0), Int, Float}`, `Float→{Int, Float}`,
`Str/List/Map→{Bool(non-empty)}` — and every combination outside the table
fails with `TypeMismatch(source tag, target tag)` (not `TypeError`). -/
theorem UVM.coerce_table {F : Type} (fops : UVM.FloatOps F) :
    (∀ b, UVM.Value.coerce fops (.Bool b) .Bool = .ok (.Bool b)) ∧
    (∀ b, UVM.Value.coerce fops (.Bool b) .Int
      = .ok (.Int (if b then 1 else 0))) ∧
    (∀ i, UVM.Value.coerce fops (.Int i) .Bool = .ok (.Bool (i != 0))) ∧
    (∀ i, UVM.Value.coerce fops (.Int i) .Int = .ok (.Int i)) ∧
    (∀ i, UVM.Value.coerce fops (.Int i) .Float
      = .ok (.Float (fops.ofInt i))) ∧
    (∀ x, UVM.Value.coerce fops (.Float x) .Int = .ok (.Int (fops.toInt x))) ∧
    (∀ x, UVM.Value.coerce fops (.Float x) .Float = .ok (.Float x)) ∧
    (∀ s, UVM.Value.coerce fops (.Str s) .Bool = .ok (.Bool (!s.isEmpty))) ∧
    (∀ l, UVM.Value.coerce fops (.List l) .Bool = .ok (.Bool (!l.isEmpty))) ∧
    (∀ m, UVM.Value.coerce fops (.Map m) .Bool = .ok (.Bool (!m.isEmpty))) ∧
    (∀ (v : UVM.Value F) tt, UVM.tableDefined v.getType tt = false →
      UVM.Value.coerce fops v tt
        = .error (.err (.TypeMismatch v.getType tt))) := by
  refine ⟨fun _ => rfl, fun _ => rfl, fun _ => rfl, fun _ => rfl, fun _ => rfl,
    fun _ => rfl, fun _ => rfl, fun _ => rfl, fun _ => rfl, fun _ => rfl,
    fun v tt h => ?_⟩
  cases v <;> cases tt <;> first
    | rfl
    | exact absurd h (by simp [UVM.tableDefined, UVM.Value.getType])

/-- Witness for the hypothesis of `UVM.coerce_table`: `Addr` coerced to
`Int` lies outside the table and fails with `TypeMismatch`. -/
theorem UVM.coerce_table_witness :
    UVM.Value.coerce UVM.unitFloat (.Addr 0) .Int
      = .error (.err (.TypeMismatch .Addr .Int)) :=
  (UVM.coerce_table UVM.unitFloat).2.2.2.2.2.2.2.2.2.2 (.Addr 0) .Int rfl

/-- C5 counterexample: the claim says `narrow` removes duplicates wherever
they occur, so `[Int, Str, Int]` should collapse to `Union([Int, Str])`.
`Vec::dedup` removes only adjacent duplicates, and the non-adjacent `Int`
survives. -/
theorem UTC.narrow_counterexample :
    UTC.narrow UTC.beqU [.Int, .Str, .Int] = .Union [.Int, .Str, .Int] ∧
    UTC.narrow UTC.beqU [.Int, .Str, .Int] ≠ .Union [.Int, .Str] := by
  have h : UTC.narrow UTC.beqU [.Int, .Str, .Int]
      = .Union [.Int, .Str, .Int] := by
    simp [UTC.narrow, UTC.dedup, UTC.beqTT]
  refine ⟨h, ?_⟩
  rw [h]
  intro hc
  injection hc with hl
  simp at hl

/-- `Vec::dedup` collapses a run that is entirely equal (under the
`PartialEq` model) to its retained head to just that head. -/
theorem UTC.dedup_all_eq {F : Type} (beqF : F → F → Bool) (t : UTC.TypeTag F) :
    ∀ l : List (UTC.TypeTag F), (∀ x ∈ l, UTC.beqTT beqF x t = true) →
      UTC.dedup beqF (t :: l) = [t] := by
  intro l
  induction l with
  | nil => intro _; simp [UTC.dedup]
  | cons x rest ih =>
    intro h
    have hx : UTC.beqTT beqF x t = true := h x (by simp)
    have : UTC.dedup beqF (t :: x :: rest) = UTC.dedup beqF (t :: rest) := by
      simp [UTC.dedup, hx]
    rw [this]
    exact ih (fun y hy => h y (by simp [hy]))

/-- C5 amended: `narrow` deduplicates only adjacent equal types.  The
empty sequence gives `Unit`, a singleton gives that type, a sequence whose
members are all equal to its head gives the head, and whenever at least
two entries survive the adjacent dedup the result is `Union` of exactly
the surviving (possibly still non-adjacently duplicated) list. -/
theorem UTC.narrow_amended {F : Type} (beqF : F → F → Bool) :
    (UTC.narrow beqF ([] : List (UTC.TypeTag F)) = .Unit) ∧
    (∀ t : UTC.TypeTag F, UTC.narrow beqF [t] = t) ∧
    (∀ (t : UTC.TypeTag F) (l : List (UTC.TypeTag F)),
      (∀ x ∈ l, UTC.beqTT beqF x t = true) → UTC.narrow beqF (t :: l) = t) ∧
    (∀ l : List (UTC.TypeTag F), 2 ≤ (UTC.dedup beqF l).length →
      UTC.narrow beqF l = .Union (UTC.dedup beqF l)) := by
  refine ⟨by simp [UTC.narrow, UTC.dedup], fun t => by simp [UTC.narrow, UTC.dedup],
    fun t l h => ?_, fun l h => ?_⟩
  · rw [UTC.narrow, UTC.dedup_all_eq beqF t l h]
  · rw [UTC.narrow]
    match hd : UTC.dedup beqF l with
    | [] => rw [hd] at h; simp at h
    | [x] => rw [hd] at h; simp at h
    | x :: y :: rest => rfl

/-- Witness for the hypotheses of `UTC.narrow_amended`: a constant
sequence collapses to its element, and two distinct types survive as a
`Union` of the dedup output. -/
theorem UTC.narrow_amended_witness :
    UTC.narrow UTC.beqU [.Int, .Int] = .Int ∧
    UTC.narrow UTC.beqU [.Int, .Str]
      = .Union (UTC.dedup UTC.beqU [.Int, .Str]) := by
  constructor
  · exact (UTC.narrow_amended UTC.beqU).2.2.1 .Int [.Int]
      (by intro x hx; simp at hx; rw [hx]; simp [UTC.beqTT])
  · exact (UTC.narrow_amended UTC.beqU).2.2.2 [.Int, .Str]
      (by simp [UTC.dedup, UTC.beqTT])

/-- C9 counterexample: the claim says `Arg(i)` with `i < arity` always
pushes a copy of slot `frame_pointer + i`.  In the reachable state where
the callee has dropped its own argument slot (program `progArgGone`), the
frame's declared arity is 1 yet `Arg(0)` fails with `Underflow`; the full
run ends in `Underflow` rather than pushing anything. -/
theorem UVM.arg_dropped_slot_counterexample :
    0 < UVM.argGoneVM.curFrame.arity ∧
    UVM.VM.arg UVM.argGoneVM 0 = .error (.err .Underflow) ∧
    UVM.VM.exec UVM.unitFloat 10 (UVM.VM.new UVM.progArgGone 5) []
      = .errored .Underflow := ⟨by decide, rfl, rfl⟩

/-- C9 amended, `Arg` at step level: with `Arg(n)` the fetched opcode,
`n < arity` pushes a copy of the value at `frame_pointer + n` and advances
— provided that slot is still within the live stack (otherwise
`Underflow`) and the stack is below capacity, the push failing with
`Overflow` when it is not; `n ≥ arity` fails with `Arity(n, arity)`. -/
theorem UVM.arg_step_amended {F : Type} (fops : UVM.FloatOps F)
    (env : List (String × UVM.Value F)) (vm : UVM.VM F) (n : Nat)
    (hpc : vm.pc < vm.program.code.length)
    (hop : vm.program.code[vm.pc] = .Arg n) :
    (∀ (_hn : n < vm.curFrame.arity)
       (hidx : vm.curFrame.framePointer + n < vm.stack.length)
       (_hcap : vm.stack.length < vm.cap),
       UVM.VM.step fops vm env
         = .ok { vm with
             stack := vm.stack
               ++ [vm.stack.get ⟨vm.curFrame.framePointer + n, hidx⟩],
             pc := vm.pc + 1 }) ∧
    (vm.curFrame.arity ≤ n →
       UVM.VM.step fops vm env
         = .error (.err (.Arity n vm.curFrame.arity))) ∧
    (n < vm.curFrame.arity → vm.stack.length ≤ vm.curFrame.framePointer + n →
       UVM.VM.step fops vm env = .error (.err .Underflow)) ∧
    (∀ (_hn : n < vm.curFrame.arity)
       (_hidx : vm.curFrame.framePointer + n < vm.stack.length),
       vm.cap ≤ vm.stack.length →
       UVM.VM.step fops vm env = .error (.err .Overflow)) := by
  refine ⟨fun hn hidx hcap => ?_, fun hge => ?_, fun hn hle => ?_,
    fun hn hidx hcap => ?_⟩
  · simp [UVM.VM.step, UVM.Program.fetch, hpc, hop, UVM.VM.dispatch,
      UVM.VM.arg, hn, hidx, UVM.VM.push, hcap, List.get_eq_getElem]
  · have hn' : ¬ n < vm.curFrame.arity := Nat.not_lt.2 hge
    simp [UVM.VM.step, UVM.Program.fetch, hpc, hop, UVM.VM.dispatch,
      UVM.VM.arg, hn']
  · have hidx' : ¬ vm.curFrame.framePointer + n < vm.stack.length :=
      Nat.not_lt.2 hle
    simp [UVM.VM.step, UVM.Program.fetch, hpc, hop, UVM.VM.dispatch,
      UVM.VM.arg, hn, hidx']
  · have hcap' : ¬ vm.stack.length < vm.cap := Nat.not_lt.2 hcap
    simp [UVM.VM.step, UVM.Program.fetch, hpc, hop, UVM.VM.dispatch,
      UVM.VM.arg, hn, hidx, UVM.VM.push, hcap']

/-- Witness for `UVM.arg_step_amended`: in a frame of arity 1 whose slot
is live, `Arg(0)` pushes a copy of the argument and advances; the same
state with its capacity already exhausted fails with `Overflow`. -/
theorem UVM.arg_step_amended_witness :
    (UVM.VM.step UVM.unitFloat UVM.argHereVM []
      = .ok { UVM.argHereVM with stack := [.Int 42, .Int 42], pc := 5 }) ∧
    (UVM.VM.step UVM.unitFloat { UVM.argHereVM with cap := 1 } []
      = .error (.err .Overflow)) :=
  ⟨(UVM.arg_step_amended UVM.unitFloat [] UVM.argHereVM 0 (by decide) rfl).1
    (by decide) (by decide) (by decide),
   (UVM.arg_step_amended UVM.unitFloat [] { UVM.argHereVM with cap := 1 } 0
      (by decide) rfl).2.2.2 (by decide) (by decide) (by decide)⟩

/-- Values that are not addresses fail the `TryInto<usize>` conversion
with a `TypeError` naming the `Addr` type set. -/
theorem UVM.tryIntoAddr_not_addr {F : Type} (v : UVM.Value F)
    (h : v.getType ≠ .Addr) :
    UVM.tryIntoAddr v
      = .error (.err (.TypeError (UVM.fromFlag .Addr) v.getType)) := by
  cases v <;> first
    | rfl
    | exact absurd rfl h

/-- C10 counterexample: the claim says that in every state with exactly
one value on the stack the conditional branches fail with `Underflow`.
With the single value `Int(1)` on the stack, `branch_true` pops it as the
branch target and fails with a `TypeError` expecting `Addr` instead. -/
theorem UVM.branch_one_value_counterexample :
    UVM.oneIntVM.stack.length = 1 ∧
    UVM.VM.branch_true UVM.oneIntVM
      = .error (.err (.TypeError (UVM.fromFlag .Addr) .Int)) ∧
    UVM.VM.branch_true UVM.oneIntVM ≠ .error (.err .Underflow) := by
  refine ⟨rfl, rfl, ?_⟩
  intro h
  rw [show UVM.VM.branch_true UVM.oneIntVM
      = .error (.err (.TypeError (UVM.fromFlag .Addr) .Int)) from rfl] at h
  simp at h

/-- C10 amended: `BranchTrue`/`BranchFalse` pop the `Addr` target first and
the `Bool` condition second, consuming both on either path; a non-`Addr`
top fails with a `TypeError` expecting `Addr` (whatever lies beneath); and
a stack holding exactly one value, an `Addr`, fails with `Underflow`. -/
theorem UVM.branch_ops_amended {F : Type} (vm : UVM.VM F) :
    (∀ (s : List (UVM.Value F)) (b : Bool) (a : Nat),
       vm.stack = s ++ [.Bool b, .Addr a] →
       UVM.VM.branch_true vm
         = .ok (if b then (.Branch a, { vm with stack := s })
                else (.Advance, { vm with stack := s })) ∧
       UVM.VM.branch_false vm
         = .ok (if b then (.Advance, { vm with stack := s })
                else (.Branch a, { vm with stack := s }))) ∧
    (∀ v, vm.stack.getLast? = some v → v.getType ≠ .Addr →
       UVM.VM.branch_true vm
         = .error (.err (.TypeError (UVM.fromFlag .Addr) v.getType)) ∧
       UVM.VM.branch_false vm
         = .error (.err (.TypeError (UVM.fromFlag .Addr) v.getType))) ∧
    (∀ a : Nat, vm.stack = [.Addr a] →
       UVM.VM.branch_true vm = .error (.err .Underflow) ∧
       UVM.VM.branch_false vm = .error (.err .Underflow)) := by
  refine ⟨fun s b a h => ?_, fun v hv hne => ?_, fun a h => ?_⟩
  · have hTwo : vm.stack = (s ++ [.Bool b]) ++ [.Addr a] := by
      rw [h]; simp
    constructor <;>
      simp [UVM.VM.branch_true, UVM.VM.branch_false, UVM.VM.popAddr,
        UVM.VM.popBool, UVM.VM.pop, hTwo, List.getLast?_concat,
        List.dropLast_concat, UVM.tryIntoAddr, UVM.tryIntoBool]
  · constructor <;>
      simp [UVM.VM.branch_true, UVM.VM.branch_false, UVM.VM.popAddr,
        UVM.VM.pop, hv, UVM.tryIntoAddr_not_addr v hne]
  · constructor <;>
      simp [UVM.VM.branch_true, UVM.VM.branch_false, UVM.VM.popAddr,
        UVM.VM.popBool, UVM.VM.pop, h, UVM.tryIntoAddr, UVM.tryIntoBool]

/-- Witness for `UVM.branch_ops_amended`: a taken `BranchTrue`, a
`TypeError` on a non-`Addr` top above a `Bool`, and an `Underflow` on a
lone `Addr`. -/
theorem UVM.branch_ops_amended_witness :
    UVM.VM.branch_true { UVM.oneIntVM with stack := [.Str "s", .Bool true, .Addr 7] }
      = .ok (.Branch 7, { UVM.oneIntVM with stack := [.Str "s"] }) ∧
    UVM.VM.branch_true { UVM.oneIntVM with stack := [.Bool true, .Int 9] }
      = .error (.err (.TypeError (UVM.fromFlag .Addr) .Int)) ∧
    UVM.VM.branch_false { UVM.oneIntVM with stack := [.Addr 7] }
      = .error (.err .Underflow) := by
  refine ⟨?_, ?_, ?_⟩
  · have h := ((UVM.branch_ops_amended
      { UVM.oneIntVM with stack := [.Str "s", .Bool true, .Addr 7] }).1
      [.Str "s"] true 7 rfl).1
    simpa using h
  · exact ((UVM.branch_ops_amended
      { UVM.oneIntVM with stack := [.Bool true, .Int 9] }).2.1
      (.Int 9) rfl (by decide)).1
  · exact ((UVM.branch_ops_amended
      { UVM.oneIntVM with stack := [.Addr 7] }).2.2 7 rfl).2


namespace UVM
variable {F : Type}

/-- A successful `push` keeps the capacity and stays within it. -/
theorem push_ok {vm : VM F} {v : Value F} {cf : ControlFlow F} {vm' : VM F}
    (h : VM.push vm v = .ok (cf, vm')) :
    vm'.cap = vm.cap ∧ vm'.stack.length ≤ vm.cap := by
  by_cases hlt : vm.stack.length < vm.cap
  · simp [VM.push, hlt] at h
    obtain ⟨h1, h2⟩ := h
    subst h2
    simp
    omega
  · simp [VM.push, hlt] at h

/-- A successful `pop` keeps the capacity and shrinks the stack. -/
theorem pop_ok {vm : VM F} {v : Value F} {vm' : VM F}
    (h : VM.pop vm = .ok (v, vm')) :
    vm'.cap = vm.cap ∧ vm'.stack.length ≤ vm.stack.length := by
  cases hg : vm.stack.getLast? with
  | none => simp [VM.pop, hg] at h
  | some w =>
    simp [VM.pop, hg] at h
    obtain ⟨h1, h2⟩ := h
    subst h2
    simp [List.length_dropLast]

/-- A successful typed pop keeps the capacity and shrinks the stack. -/
theorem popBool_ok {vm : VM F} {b : Bool} {vm' : VM F}
    (h : VM.popBool vm = .ok (b, vm')) :
    vm'.cap = vm.cap ∧ vm'.stack.length ≤ vm.stack.length := by
  cases hp : vm.pop with
  | error e => simp [VM.popBool, hp] at h
  | ok p =>
    obtain ⟨v, vmp⟩ := p
    cases ht : tryIntoBool (F := F) v with
    | error e => simp [VM.popBool, hp, ht] at h
    | ok c =>
      simp [VM.popBool, hp, ht] at h
      obtain ⟨h1, h2⟩ := h
      subst h2
      exact pop_ok hp

/-- A successful typed pop keeps the capacity and shrinks the stack. -/
theorem popAddr_ok {vm : VM F} {a : Nat} {vm' : VM F}
    (h : VM.popAddr vm = .ok (a, vm')) :
    vm'.cap = vm.cap ∧ vm'.stack.length ≤ vm.stack.length := by
  cases hp : vm.pop with
  | error e => simp [VM.popAddr, hp] at h
  | ok p =>
    obtain ⟨v, vmp⟩ := p
    cases ht : tryIntoAddr (F := F) v with
    | error e => simp [VM.popAddr, hp, ht] at h
    | ok c =>
      simp [VM.popAddr, hp, ht] at h
      obtain ⟨h1, h2⟩ := h
      subst h2
      exact pop_ok hp

/-- A successful typed pop keeps the capacity and shrinks the stack. -/
theorem popStr_ok {vm : VM F} {s : String} {vm' : VM F}
    (h : VM.popStr vm = .ok (s, vm')) :
    vm'.cap = vm.cap ∧ vm'.stack.length ≤ vm.stack.length := by
  cases hp : vm.pop with
  | error e => simp [VM.popStr, hp] at h
  | ok p =>
    obtain ⟨v, vmp⟩ := p
    cases ht : tryIntoStr (F := F) v with
    | error e => simp [VM.popStr, hp, ht] at h
    | ok c =>
      simp [VM.popStr, hp, ht] at h
      obtain ⟨h1, h2⟩ := h
      subst h2
      exact pop_ok hp

/-- A successful typed pop keeps the capacity and shrinks the stack. -/
theorem popList_ok {vm : VM F} {l : List (Value F)} {vm' : VM F}
    (h : VM.popList vm = .ok (l, vm')) :
    vm'.cap = vm.cap ∧ vm'.stack.length ≤ vm.stack.length := by
  cases hp : vm.pop with
  | error e => simp [VM.popList, hp] at h
  | ok p =>
    obtain ⟨v, vmp⟩ := p
    cases ht : tryIntoList (F := F) v with
    | error e => simp [VM.popList, hp, ht] at h
    | ok c =>
      simp [VM.popList, hp, ht] at h
      obtain ⟨h1, h2⟩ := h
      subst h2
      exact pop_ok hp

/-- A successful typed pop keeps the capacity and shrinks the stack. -/
theorem popMap_ok {vm : VM F} {m : List (String × Value F)} {vm' : VM F}
    (h : VM.popMap vm = .ok (m, vm')) :
    vm'.cap = vm.cap ∧ vm'.stack.length ≤ vm.stack.length := by
  cases hp : vm.pop with
  | error e => simp [VM.popMap, hp] at h
  | ok p =>
    obtain ⟨v, vmp⟩ := p
    cases ht : tryIntoMap (F := F) v with
    | error e => simp [VM.popMap, hp, ht] at h
    | ok c =>
      simp [VM.popMap, hp, ht] at h
      obtain ⟨h1, h2⟩ := h
      subst h2
      exact pop_ok hp

/-- The unwind loop of `ret` never grows the stack. -/
theorem removeLoop_ok {s s' : List (Value F)} {fp k : Nat}
    (h : removeLoop s fp k = .ok s') : s'.length ≤ s.length := by
  induction k generalizing s with
  | zero =>
    simp [removeLoop] at h
    subst h; exact le_refl _
  | succ n ih =>
    by_cases hfp : fp < s.length
    · simp [removeLoop, hfp] at h
      have := ih h
      simp at this
      omega
    · simp [removeLoop, hfp] at h

/-- The pop loop of `drop` keeps the capacity and shrinks the stack. -/
theorem popN_ok {vm vm' : VM F} {k : Nat} (h : popN vm k = .ok vm') :
    vm'.cap = vm.cap ∧ vm'.stack.length ≤ vm.stack.length := by
  induction k generalizing vm with
  | zero =>
    simp [popN] at h
    subst h; exact ⟨rfl, le_refl _⟩
  | succ n ih =>
    cases hp : vm.pop with
    | error e => simp [popN, hp] at h
    | ok p =>
      obtain ⟨v, vmp⟩ := p
      simp [popN, hp] at h
      obtain ⟨hc, hl⟩ := ih h
      obtain ⟨hc', hl'⟩ := pop_ok hp
      exact ⟨hc.trans hc', hl.trans hl'⟩

/-- The push loop of `dup` keeps the capacity and never pushes past it. -/
theorem pushN_ok {vm vm' : VM F} {v : Value F} {k : Nat}
    (h : pushN vm v k = .ok vm') :
    vm'.cap = vm.cap ∧ vm'.stack.length ≤ max vm.stack.length vm.cap := by
  induction k generalizing vm with
  | zero =>
    simp [pushN] at h
    subst h; exact ⟨rfl, le_max_left _ _⟩
  | succ n ih =>
    cases hp : vm.push v with
    | error e => simp [pushN, hp] at h
    | ok p =>
      obtain ⟨cf, vmp⟩ := p
      simp [pushN, hp] at h
      obtain ⟨hc, hl⟩ := ih h
      obtain ⟨hc', hl'⟩ := push_ok hp
      refine ⟨hc.trans hc', ?_⟩
      rw [hc'] at hl
      omega

/-- Every opcode that dispatches successfully preserves the capacity and
leaves the operand stack within it. -/
theorem dispatch_ok {fops : FloatOps F} {vm : VM F} {op : Opcode}
    {env : List (String × Value F)} {cf : ControlFlow F} {vm' : VM F}
    (h : VM.dispatch fops vm op env = .ok (cf, vm')) :
    vm'.cap = vm.cap ∧ vm'.stack.length ≤ max vm.stack.length vm.cap := by
  cases op with
  | LoadI addr =>
    simp [VM.dispatch, VM.load_immediate] at h
    cases hl : vm.program.load addr with
    | error e => simp [hl] at h
    | ok v =>
      simp [hl] at h
      cases hp : vm.push v with
      | error e => simp [hp] at h
      | ok p =>
        obtain ⟨cf2, vm2⟩ := p
        simp [hp] at h
        obtain ⟨h1, h2⟩ := h
        subst h2
        obtain ⟨hc, hl2⟩ := push_ok hp
        exact ⟨hc, by omega⟩
  | Load =>
    simp [VM.dispatch, VM.load] at h
    cases hp : vm.pop with
    | error e => simp [hp] at h
    | ok p =>
      obtain ⟨v, vmp⟩ := p
      cases v with
      | Addr address =>
        simp [hp, VM.load_immediate] at h
        obtain ⟨hc0, hl0⟩ := pop_ok hp
        cases hl : vmp.program.load address with
        | error e => simp [hl] at h
        | ok w =>
          simp [hl] at h
          cases hq : vmp.push w with
          | error e => simp [hq] at h
          | ok q =>
            obtain ⟨cf2, vm2⟩ := q
            simp [hq] at h
            obtain ⟨h1, h2⟩ := h
            subst h2
            obtain ⟨hc, hl2⟩ := push_ok hq
            refine ⟨hc.trans hc0, ?_⟩
            rw [hc0] at hl2
            omega
      | Bool b => simp [hp] at h
      | Int i => simp [hp] at h
      | Float x => simp [hp] at h
      | Str s => simp [hp] at h
      | List l => simp [hp] at h
      | Map m => simp [hp] at h
  | Get =>
    simp [VM.dispatch, VM.get] at h
    cases hp : vm.popStr with
    | error e => simp [hp] at h
    | ok p =>
      obtain ⟨key, vmp⟩ := p
      simp [hp] at h
      cases hk : lookupKey key env with
      | none => simp [hk] at h
      | some value =>
        simp [hk] at h
        obtain ⟨h1, h2⟩ := h
        subst h2
        obtain ⟨hc, hl⟩ := popStr_ok hp
        exact ⟨hc, by omega⟩
  | Coerce t =>
    simp [VM.dispatch, VM.coerceOp] at h
    cases hp : vm.pop with
    | error e => simp [hp] at h
    | ok p =>
      obtain ⟨v, vmp⟩ := p
      simp [hp] at h
      cases hcv : v.coerce fops t with
      | error e => simp [hcv] at h
      | ok w =>
        simp [hcv] at h
        obtain ⟨h1, h2⟩ := h
        subst h2
        obtain ⟨hc, hl⟩ := pop_ok hp
        exact ⟨hc, by omega⟩
  | Binary op =>
    simp [VM.dispatch, VM.binop] at h
    cases hp : vm.pop with
    | error e => simp [hp] at h
    | ok p =>
      obtain ⟨b, vm1⟩ := p
      simp [hp] at h
      cases hq : vm1.pop with
      | error e => simp [hq] at h
      | ok q =>
        obtain ⟨a, vm2⟩ := q
        simp [hq] at h
        obtain ⟨hc1, hl1⟩ := pop_ok hp
        obtain ⟨hc2, hl2⟩ := pop_ok hq
        cases hr : (match op with
          | .Add => a.add fops b
          | .Sub => a.sub fops b
          | .Mul => a.mul fops b
          | .Div => a.div fops b
          | .Mod => a.modulo fops b
          | .Pow => a.pow fops b
          | .And => a.bitand b
          | .Or => a.bitor b
          | .Xor => a.bitxor b
          | .Lt => a.lt fops b
          | .Gt => a.gt fops b
          | .Lte => a.lte fops b
          | .Gte => a.gte fops b
          | .Eq => a.eq fops b
          | .Shl => a.shl b
          | .Shr => a.shr b
          | .Min => a.min fops b
          | .Max => a.max fops b) with
        | error e => simp [hr] at h
        | ok ret =>
          simp [hr] at h
          obtain ⟨h1, h2⟩ := h
          subst h2
          exact ⟨hc2.trans hc1, by omega⟩
  | Unary op =>
    simp [VM.dispatch, VM.unop] at h
    cases hp : vm.pop with
    | error e => simp [hp] at h
    | ok p =>
      obtain ⟨v, vm1⟩ := p
      simp [hp] at h
      obtain ⟨hc, hl⟩ := pop_ok hp
      cases hr : (match op with
        | .Not => v.not
        | .Neg => v.neg fops
        | .Abs => v.abs fops) with
      | error e => simp [hr] at h
      | ok ret =>
        simp [hr] at h
        obtain ⟨h1, h2⟩ := h
        subst h2
        exact ⟨hc, by omega⟩
  | Call arity =>
    simp [VM.dispatch, VM.call] at h
    cases hp : vm.popAddr with
    | error e => simp [hp] at h
    | ok p =>
      obtain ⟨target, vmp⟩ := p
      simp [hp] at h
      obtain ⟨h1, h2⟩ := h
      subst h2
      obtain ⟨hc, hl⟩ := popAddr_ok hp
      exact ⟨hc, by simp; omega⟩
  | Ret retvals =>
    simp [VM.dispatch, VM.ret] at h
    cases hr : removeLoop vm.stack vm.curFrame.framePointer vm.curFrame.arity with
    | error e => simp [hr] at h
    | ok s =>
      simp [hr] at h
      by_cases hlen : s.length = vm.curFrame.framePointer + retvals
      · simp [hlen] at h
        cases hcs : vm.callStack with
        | nil => simp [hcs] at h
        | cons f rest =>
          simp [hcs] at h
          obtain ⟨h1, h2⟩ := h
          subst h2
          have := removeLoop_ok hr
          exact ⟨rfl, by simp; omega⟩
      · simp [hlen] at h
  | BranchTrue =>
    simp [VM.dispatch, VM.branch_true] at h
    cases hp : vm.popAddr with
    | error e => simp [hp] at h
    | ok p =>
      obtain ⟨target, vm1⟩ := p
      simp [hp] at h
      cases hq : vm1.popBool with
      | error e => simp [hq] at h
      | ok q =>
        obtain ⟨cond, vm2⟩ := q
        simp [hq] at h
        obtain ⟨hc1, hl1⟩ := popAddr_ok hp
        obtain ⟨hc2, hl2⟩ := popBool_ok hq
        cases cond <;> simp at h <;> obtain ⟨h1, h2⟩ := h <;> subst h2 <;>
          exact ⟨hc2.trans hc1, by omega⟩
  | BranchFalse =>
    simp [VM.dispatch, VM.branch_false] at h
    cases hp : vm.popAddr with
    | error e => simp [hp] at h
    | ok p =>
      obtain ⟨target, vm1⟩ := p
      simp [hp] at h
      cases hq : vm1.popBool with
      | error e => simp [hq] at h
      | ok q =>
        obtain ⟨cond, vm2⟩ := q
        simp [hq] at h
        obtain ⟨hc1, hl1⟩ := popAddr_ok hp
        obtain ⟨hc2, hl2⟩ := popBool_ok hq
        cases cond <;> simp at h <;> obtain ⟨h1, h2⟩ := h <;> subst h2 <;>
          exact ⟨hc2.trans hc1, by omega⟩
  | Branch =>
    simp [VM.dispatch, VM.branch] at h
    cases hp : vm.popAddr with
    | error e => simp [hp] at h
    | ok p =>
      obtain ⟨addr, vmp⟩ := p
      simp [hp] at h
      obtain ⟨h1, h2⟩ := h
      subst h2
      obtain ⟨hc, hl⟩ := popAddr_ok hp
      exact ⟨hc, by omega⟩
  | Drop n =>
    simp [VM.dispatch, VM.drop] at h
    cases hp : popN vm n with
    | error e => simp [hp] at h
    | ok vmp =>
      simp [hp] at h
      obtain ⟨h1, h2⟩ := h
      subst h2
      obtain ⟨hc, hl⟩ := popN_ok hp
      exact ⟨hc, by omega⟩
  | Dup n =>
    simp [VM.dispatch, VM.dup] at h
    cases hp : vm.pop with
    | error e => simp [hp] at h
    | ok p =>
      obtain ⟨top, vm1⟩ := p
      simp [hp] at h
      cases hq : pushN vm1 top ((n + 1) % 256) with
      | error e => simp [hq] at h
      | ok vm2 =>
        simp [hq] at h
        obtain ⟨h1, h2⟩ := h
        subst h2
        obtain ⟨hc1, hl1⟩ := pop_ok hp
        obtain ⟨hc2, hl2⟩ := pushN_ok hq
        rw [hc1] at hl2
        exact ⟨hc2.trans hc1, by omega⟩
  | Arg n =>
    simp [VM.dispatch, VM.arg] at h
    by_cases hn : n < vm.curFrame.arity
    · simp [hn] at h
      by_cases hidx : vm.curFrame.framePointer + n < vm.stack.length
      · simp [hidx] at h
        obtain ⟨h1, h2⟩ := h
        subst h2
        exact ⟨rfl, le_max_left _ _⟩
      · simp [hidx] at h
    · simp [hn] at h
  | Index =>
    simp [VM.dispatch, VM.index] at h
    cases hp : vm.popAddr with
    | error e => simp [hp] at h
    | ok p =>
      obtain ⟨i, vm1⟩ := p
      simp [hp] at h
      cases hq : vm1.popList with
      | error e => simp [hq] at h
      | ok q =>
        obtain ⟨lst, vm2⟩ := q
        simp [hq] at h
        obtain ⟨hc1, hl1⟩ := popAddr_ok hp
        obtain ⟨hc2, hl2⟩ := popList_ok hq
        by_cases hi : i < lst.length
        · simp [hi] at h
          cases hr : vm2.push lst[i] with
          | error e => simp [hr] at h
          | ok r =>
            obtain ⟨cf3, vm3⟩ := r
            simp [hr] at h
            obtain ⟨h1, h2⟩ := h
            subst h2
            obtain ⟨hc3, hl3⟩ := push_ok hr
            rw [hc2, hc1] at hl3
            exact ⟨(hc3.trans hc2).trans hc1, by omega⟩
        · simp [hi] at h
  | Dot =>
    simp [VM.dispatch, VM.dot] at h
    cases hp : vm.popStr with
    | error e => simp [hp] at h
    | ok p =>
      obtain ⟨key, vm1⟩ := p
      simp [hp] at h
      cases hq : vm1.popMap with
      | error e => simp [hq] at h
      | ok q =>
        obtain ⟨mp, vm2⟩ := q
        simp [hq] at h
        obtain ⟨hc1, hl1⟩ := popStr_ok hp
        obtain ⟨hc2, hl2⟩ := popMap_ok hq
        cases hk : lookupKey key mp with
        | none => simp [hk] at h
        | some value =>
          simp [hk] at h
          cases hr : vm2.push value with
          | error e => simp [hr] at h
          | ok r =>
            obtain ⟨cf3, vm3⟩ := r
            simp [hr] at h
            obtain ⟨h1, h2⟩ := h
            subst h2
            obtain ⟨hc3, hl3⟩ := push_ok hr
            rw [hc2, hc1] at hl3
            exact ⟨(hc3.trans hc2).trans hc1, by omega⟩
  | Expect t =>
    simp [VM.dispatch, VM.expect] at h
    cases hg : vm.stack.getLast? with
    | none => simp [hg] at h
    | some value =>
      simp [hg] at h
      by_cases ht : t = value.getType
      · simp [ht] at h
        obtain ⟨h1, h2⟩ := h
        subst h2
        exact ⟨rfl, le_max_left _ _⟩
      · simp [ht] at h
  | Disp ef =>
    simp [VM.dispatch, VM.disp] at h
    cases hp : vm.pop with
    | error e => simp [hp] at h
    | ok p =>
      obtain ⟨v, vmp⟩ := p
      simp [hp] at h
      obtain ⟨h1, h2⟩ := h
      subst h2
      obtain ⟨hc, hl⟩ := pop_ok hp
      exact ⟨hc, by simp; omega⟩
  | Break => simp [VM.dispatch] at h
  | Halt => simp [VM.dispatch] at h

/-- One successful `step` preserves the capacity bound. -/
theorem step_ok {fops : FloatOps F} {vm vm' : VM F}
    {env : List (String × Value F)}
    (h : VM.step fops vm env = .ok vm') :
    vm'.cap = vm.cap ∧ vm'.stack.length ≤ max vm.stack.length vm.cap := by
  cases hf : vm.program.fetch vm.pc with
  | error e => simp [VM.step, hf] at h
  | ok opcode =>
    simp [VM.step, hf] at h
    cases hd : VM.dispatch fops vm opcode env with
    | error e => simp [hd] at h
    | ok p =>
      obtain ⟨result, vm1⟩ := p
      simp [hd] at h
      obtain ⟨hc1, hl1⟩ := dispatch_ok hd
      cases result with
      | Advance =>
        simp at h
        subst h
        exact ⟨hc1, by simpa using hl1⟩
      | Branch addr =>
        simp at h
        subst h
        exact ⟨hc1, by simpa using hl1⟩
      | Yield v =>
        cases hq : vm1.push v with
        | error e => simp [hq] at h
        | ok q =>
          obtain ⟨cf2, vm2⟩ := q
          simp [hq] at h
          subst h
          obtain ⟨hc2, hl2⟩ := push_ok hq
          rw [hc1] at hl2
          exact ⟨by simpa using hc2.trans hc1, by simp; omega⟩

/-- Any number of successful steps preserves the capacity bound. -/
theorem stepN_ok {fops : FloatOps F} {env : List (String × Value F)}
    {n : Nat} {vm vm' : VM F}
    (h : VM.stepN fops env n vm = .ok vm') :
    vm'.cap = vm.cap ∧ vm'.stack.length ≤ max vm.stack.length vm.cap := by
  induction n generalizing vm with
  | zero =>
    simp [VM.stepN] at h
    subst h
    exact ⟨rfl, le_max_left _ _⟩
  | succ k ih =>
    cases hs : VM.step fops vm env with
    | error e => simp [VM.stepN, hs] at h
    | ok vm1 =>
      simp [VM.stepN, hs] at h
      obtain ⟨hc1, hl1⟩ := step_ok hs
      obtain ⟨hc2, hl2⟩ := ih h
      rw [hc1] at hl2
      exact ⟨hc2.trans hc1, by omega⟩

end UVM

namespace UVM

/-- C8: the operand stack is bounded by the capacity `L` fixed at
construction: a push at capacity fails with `Overflow`, a pop of the
empty stack fails with `Underflow`, and along every execution from a
freshly constructed VM the stack never holds more than `L` values. -/
theorem stack_bounded {F : Type} (fops : FloatOps F) :
    (∀ (vm : VM F) (v : Value F), vm.cap ≤ vm.stack.length →
       VM.push vm v = .error (.err .Overflow)) ∧
    (∀ vm : VM F, vm.stack = [] →
       VM.pop vm = .error (.err .Underflow)) ∧
    (∀ (P : Program F) (L : Nat) (env : List (String × Value F))
       (n : Nat) (vm' : VM F),
       VM.stepN fops env n (VM.new P L) = .ok vm' →
       vm'.stack.length ≤ L) := by
  refine ⟨fun vm v hc => ?_, fun vm hs => ?_, fun P L env n vm' h => ?_⟩
  · simp [VM.push, Nat.not_lt.2 hc]
  · simp [VM.pop, hs]
  · have h2 := stepN_ok h
    simp [VM.new] at h2
    omega

/-- Witness for the hypotheses of `UVM.stack_bounded`: a full stack
overflows, an empty one underflows, and a three-step run of the
two-literal addition program stays within its capacity of 2. -/
theorem stack_bounded_witness :
    VM.push fullVM (.Int 3) = .error (.err .Overflow) ∧
    VM.pop (VM.new prog1 2) = .error (.err .Underflow) ∧
    ({ program := prog1, stack := [.Int 3], callStack := [],
       curFrame := ⟨0, 0, 0⟩, pc := 3, cap := 2,
       outBuf := [] } : VM Unit).stack.length ≤ 2 :=
  ⟨(stack_bounded unitFloat).1 fullVM (.Int 3) (by decide),
   (stack_bounded unitFloat).2.1 (VM.new prog1 2) rfl,
   (stack_bounded unitFloat).2.2 prog1 2 [] 3 _ rfl⟩

end UVM

namespace UVM

/-- The label-collection pass is the identity on label-free input. -/
theorem labelsPass_vals (vs : List (Value Unit)) :
    ∀ (acc : List (Insn Unit)) (labels : List (String × Insn Unit)),
    labelsPass (vs.map .Val) acc labels = (acc ++ vs.map .Val, labels) := by
  induction vs with
  | nil => intro acc labels; simp [labelsPass]
  | cons v rest ih =>
    intro acc labels
    simp only [List.map, labelsPass]
    rw [ih]
    simp

/-- The reference-substitution pass is the identity on label-free
input. -/
theorem refsPass_vals (vs : List (Value Unit))
    (labels : List (String × Insn Unit)) :
    refsPass labels (vs.map .Val) = .ok (vs.map .Val) := by
  induction vs with
  | nil => simp [refsPass]
  | cons v rest ih => simp [List.map, refsPass, ih, Except.map]

/-- `filter_labels` is the identity on a pure literal list. -/
theorem filter_labels_vals (vs : List (Value Unit)) :
    filter_labels (vs.map .Val) = .ok (vs.map .Val) := by
  rw [filter_labels, labelsPass_vals vs [] []]
  simpa using refsPass_vals vs []

/-- Lowering a run of distinct integer literals interns each one at the
next pool slot, emitting `LoadI(index mod 2^16)` — the `as u16` cast
truncates once the pool passes 65536 entries. -/
theorem lowerLoop_ints (rem : Nat) :
    ∀ (start : Nat) (values : List (Value Unit × Nat))
      (data : List (Value Unit)) (code : List Opcode),
    data.length = start →
    (∀ j : Nat, start ≤ j → lookupVal values (.Int (Int.ofNat j)) = none) →
    lowerLoop
        ((List.range' start rem).map (fun i => Insn.Val (.Int (Int.ofNat i))))
        values data code
      = .ok ⟨code ++ (List.range' start rem).map
               (fun i => Opcode.LoadI (i % 2 ^ 16)),
             data ++ (List.range' start rem).map
               (fun i => Value.Int (Int.ofNat i))⟩ := by
  induction rem with
  | zero => intro start values data code hlen hmiss; simp [lowerLoop]
  | succ n ih =>
    intro start values data code hlen hmiss
    have hmiss' : ∀ j : Nat, start + 1 ≤ j →
        lookupVal ((Value.Int (Int.ofNat start), start % 2 ^ 16) :: values)
          (.Int (Int.ofNat j)) = none := by
      intro j hj
      have hne : ¬ (j = start) := by omega
      have hne' : ¬ (Int.ofNat j = Int.ofNat start) := by
        simpa using hne
      simp only [lookupVal, reprEq, beq_iff_eq]
      rw [if_neg hne']
      simpa using hmiss j (by omega)
    have hrec := ih (start + 1)
      ((Value.Int (Int.ofNat start), start % 2 ^ 16) :: values)
      (data ++ [.Int (Int.ofNat start)])
      (code ++ [.LoadI (start % 2 ^ 16)])
      (by simp [hlen]) hmiss'
    simp only [List.range', List.map]
    simp only [lowerLoop, hmiss start (le_refl start), hlen]
    rw [hrec]
    simp

/-- C4: the claim says an input interning more than 65535 distinct
constants makes `lower` fail with a pool-overflow error.  The source has
no such check (`// XXX: check len < 64k`): on 65537 distinct integer
literals it returns `Ok`, the pool really holds 65537 entries, and the
instruction for literal `65536` is `LoadI(0)` — silently aliasing pool
slot 0, which holds `Int(0)`. -/
theorem lower_pool_truncates :
    lower (intInsns 65537)
      = .ok ⟨(List.range 65537).map (fun i => .LoadI (i % 2 ^ 16)),
             (List.range 65537).map (fun i => .Int (Int.ofNat i))⟩ ∧
    ((List.range 65537).map
        (fun i => Opcode.LoadI (i % 2 ^ 16))).getD 65536 .Halt
      = .LoadI 0 ∧
    ((List.range 65537).map
        (fun i => (Value.Int (Int.ofNat i) : Value Unit))).getD 0 (.Bool false)
      = .Int 0 := by
  refine ⟨?_, ?_, ?_⟩
  · rw [lower, intInsns, filter_labels_vals]
    have h := lowerLoop_ints 65537 0 [] [] []
      (by simp) (fun j _ => by simp [lookupVal])
    rw [intVals, List.range_eq_range']
    simpa using h
  · rw [List.getD_eq_getElem?_getD]
    simp [List.getElem?_map, List.getElem?_range]
  · rw [List.getD_eq_getElem?_getD]
    simp [List.getElem?_map, List.getElem?_range]

end UVM
